import Mathlib

/-
Verification development for the audio capture / chunking / silence-removal
core of the Linux Whisper Notepad application (src/linux_notepad/audio.py),
following the accompanying specification of that module.

Embedding conventions:
 - sample blocks are lists of integers (int16 sample values, as exact
   integers rather than machine words);
 - quantities the source computes in floating point (durations, RMS
   values, dB thresholds) are modelled with exact rational arithmetic;
 - the mutable AudioManager object is a record and each method is a
   state-transforming function;
 - the file system is modelled by giving every written chunk file an
   identifier and payload, plus the list of identifiers existing on disk.
-/

namespace WhisperNotepad

/-- A PCM signal is modelled as the list of its (already decoded) int16
sample values. -/
abbrev Sample := Int

/-- The frame partition used by silence analysis, from
`chunks = [mono_data[i:i+chunk_samples] for i in range(0, len(mono_data), chunk_samples)]`
in `_remove_silences`: slices of `k` consecutive elements, the last slice
possibly shorter.  `k = 0` (which would make the Python `range` raise) is
mapped to the empty partition. -/
def chunksOfGo (k : ℕ) : ℕ → List α → List (List α)
  | _, [] => []
  | 0, _ :: _ => []
  | fuel + 1, a :: l => (a :: l).take k :: chunksOfGo k fuel ((a :: l).drop k)

def chunksOf (k : ℕ) (l : List α) : List (List α) :=
  if k = 0 then [] else chunksOfGo k l.length l

/-- Full scale for 16-bit samples, `np.iinfo(np.int16).max`. -/
def fullScale : ℤ := 32767

/-- Mean square of an analysis frame: the square of
`rms = np.sqrt(np.mean(chunk.astype(np.float32)**2))`, as an exact rational.
For the empty frame (never produced by `chunksOf` with `k > 0`) the rational
division by zero yields 0, which lands in the same `-100 dB` floor branch
that the source uses for an empty chunk. -/
def frameRmsSq (f : List Sample) : ℚ :=
  (f.map fun x => (x : ℚ) ^ 2).sum / f.length

/-- The decision `rms_db <= silence_threshold` from `_remove_silences`, where
`rms_db = 20*np.log10(rms/32767)` when `rms > 0` and the floor `-100`
otherwise.  Executable form: for `rms > 0`,
`20*log10(rms/32767) <= T` iff `(rms^2/32767^2)^10 <= 10^T`
(raise both sides of `rms/32767 <= 10^(T/20)` to the 20th power), a decidable
comparison of rationals.  Theorem `frameSilent_iff_db` below proves this
equivalence against the real-logarithm formula of the source/spec. -/
def frameSilent (T : ℤ) (f : List Sample) : Bool :=
  if frameRmsSq f = 0 then decide ((-100 : ℤ) ≤ T)
  else decide ((frameRmsSq f / (fullScale : ℚ) ^ 2) ^ 10 ≤ (10 : ℚ) ^ T)

/-- The region-duration test `duration >= min_silence_duration` of the
source, where `duration = (number of frames) * 0.1` seconds. -/
def qualDur (minDur : ℚ) (len : ℕ) : Bool :=
  decide (minDur ≤ (len : ℚ) * (1 / 10))

/-- The silent-region accumulation loop of `_remove_silences`
(`for i, silent in enumerate(is_silent): ...` plus the trailing-run check),
as a recursion over the remaining flags.  `i` is the index of the next flag
and the `Option` argument is the pending `start_idx`. -/
def regionsFrom (qual : ℕ → Bool) : List Bool → ℕ → Option ℕ → List (ℕ × ℕ)
  | [], _, none => []
  | [], i, some s => if qual (i - s) then [(s, i)] else []
  | b :: rest, i, none =>
      if b then regionsFrom qual rest (i + 1) (some i)
      else regionsFrom qual rest (i + 1) none
  | b :: rest, i, some s =>
      if b then regionsFrom qual rest (i + 1) (some s)
      else (if qual (i - s) then [(s, i)] else []) ++ regionsFrom qual rest (i + 1) none

/-- `silent_regions` as computed by `_remove_silences`. -/
def silentRegions (qual : ℕ → Bool) (flags : List Bool) : List (ℕ × ℕ) :=
  regionsFrom qual flags 0 none

/-- The excision loop of `_remove_silences`: for each region `(s, e)` copy
`audio_data[last_end : s*k]` and set `last_end = min(e*k, n)`; at the end
copy `audio_data[last_end:]`.  Here `n = len(audio_data)`. -/
def removeRegionsGo (k n : ℕ) (data : List α) : ℕ → List (ℕ × ℕ) → List α
  | lastEnd, [] => data.drop lastEnd
  | lastEnd, (s, e) :: rest =>
      (data.drop lastEnd).take (s * k - lastEnd) ++
        removeRegionsGo k n data (min (e * k) n) rest

def removeRegions (k n : ℕ) (regs : List (ℕ × ℕ)) (data : List α) : List α :=
  removeRegionsGo k n data 0 regs

/-- `_remove_silences`, generic in the row type `α` (a row is one sampling
instant across all channels: a single sample for mono, a pair for stereo)
and in the per-analysis-frame silence decision `flagF` (which the source
computes from the mono mix of the frame).  Returns `none` when no qualifying
silent region exists (the source then keeps the original file), otherwise
`some` of the excised signal. -/
def removeSilencesGen (flagF : List α → Bool) (qual : ℕ → Bool) (k : ℕ)
    (rows : List α) : Option (List α) :=
  let flags := (chunksOf k rows).map flagF
  let regs := silentRegions qual flags
  if regs = [] then none
  else some (removeRegions k rows.length regs rows)

/-- `_remove_silences` for a mono signal (the `channels != 2` path):
silence analysis directly on the samples; `k = int(framerate * 0.1)`. -/
def removeSilencesMono (T : ℤ) (minDur : ℚ) (framerate : ℕ) (sig : List Sample) :
    Option (List Sample) :=
  removeSilencesGen (frameSilent T) (qualDur minDur) (framerate / 10) sig

/-- The stereo reshape `audio_data.reshape(-1, 2)`. -/
def toPairs : List Sample → List (Sample × Sample)
  | a :: b :: r => (a, b) :: toPairs r
  | _ => []

/-- `astype(np.int16)` applied to the exact channel mean `(a+b)/2`:
truncation toward zero. -/
def truncHalf (s : ℤ) : ℤ := if 0 ≤ s then s / 2 else -((-s) / 2)

/-- `_remove_silences` for a stereo signal: silence analysis on the
channel-averaged mono signal `audio_data.mean(axis=1).astype(np.int16)`,
excision applied to whole rows. -/
def removeSilencesStereo (T : ℤ) (minDur : ℚ) (framerate : ℕ)
    (rows : List (Sample × Sample)) : Option (List (Sample × Sample)) :=
  removeSilencesGen (fun c => frameSilent T (c.map fun p => truncHalf (p.1 + p.2)))
    (qualDur minDur) (framerate / 10) rows

/-! ### The AudioManager recording state machine

State of the `AudioManager` object together with a model of the scratch
file system.  A written chunk file is identified by a fresh natural number
(the source uses timestamped paths, unique per chunk); `disk` is the list
of identifiers currently existing on disk; `captured` is a ghost history
variable recording every sample handed to `_audio_callback` while the
stream was live and not paused, since the last `clear_recording`. -/

/-- One temporary WAV file written by the manager: identifier plus the WAV
header parameters and the raw PCM payload. -/
structure TempFile where
  id : ℕ
  channels : ℕ
  sampwidth : ℕ
  framerate : ℕ
  data : List Sample
deriving DecidableEq, Repr

/-- The fields of the Python `AudioManager`, plus the file-system model and
the ghost capture history.  `streamActive` models `stream.is_active()`:
the callback can only fire while it holds. -/
structure AudioState where
  is_recording : Bool
  is_paused : Bool
  frames : List (List Sample)
  temp_files : List TempFile
  current_chunk_frames : List (List Sample)
  current_chunk_duration : ℚ
  sample_rate : ℕ
  channels : ℕ
  streamActive : Bool
  disk : List ℕ
  nextId : ℕ
  captured : List Sample
deriving DecidableEq, Repr

/-- The freshly constructed `AudioManager` (`__init__`).  The source leaves
`sample_rate = None` until a device is chosen; we use 0. -/
def initState : AudioState :=
  { is_recording := false, is_paused := false, frames := [], temp_files := []
    current_chunk_frames := [], current_chunk_duration := 0
    sample_rate := 0, channels := 1, streamActive := false
    disk := [], nextId := 0, captured := [] }

/-- Duration in seconds that `_audio_callback` attributes to one incoming
block: `samples = len(in_data)/(bytes_per_sample*channels)` and
`duration = samples/sample_rate`.  A block is modelled as its list of int16
sample values, so `len(in_data) = 2 * b.length` and the byte size cancels. -/
def blockDuration (channels sample_rate : ℕ) (b : List Sample) : ℚ :=
  ((b.length : ℚ) / channels) / sample_rate

/-- `_save_current_chunk`: write `b''.join(current_chunk_frames)` as a new
WAV file with the session parameters, record its path, and reset the
current-chunk accumulator.  No-op when `current_chunk_frames` is empty. -/
def saveCurrentChunk (s : AudioState) : AudioState :=
  if s.current_chunk_frames = [] then s
  else
    { s with
      temp_files := s.temp_files ++
        [⟨s.nextId, s.channels, 2, s.sample_rate, s.current_chunk_frames.flatten⟩]
      disk := s.disk ++ [s.nextId]
      nextId := s.nextId + 1
      current_chunk_frames := []
      current_chunk_duration := 0 }

/-- `_audio_callback` on one incoming block (the `paContinue` return value
carries no state and is omitted).  `maxChunk` is the configured
`max_chunk_duration`. -/
def audioCallback (maxChunk : ℚ) (s : AudioState) (b : List Sample) : AudioState :=
  if s.is_paused then s
  else
    let s1 := { s with
      frames := s.frames ++ [b]
      current_chunk_frames := s.current_chunk_frames ++ [b]
      current_chunk_duration :=
        s.current_chunk_duration + blockDuration s.channels s.sample_rate b
      captured := s.captured ++ b }
    if maxChunk ≤ s1.current_chunk_duration then saveCurrentChunk s1 else s1

/-- `_audio_callback` with an explicit model of chunk-write success:
`writeOk = false` means the `wave.open`/`writeframes` call inside
`_save_current_chunk` raises an OSError.  The Boolean in the result is true
iff the callback itself raises (the source has no try/except around the
flush, so the exception propagates into the PyAudio callback machinery);
the state component is the object state at that moment: the appends to
`frames`/`current_chunk_frames` happened before the failed write and are
not rolled back. -/
def audioCallbackE (maxChunk : ℚ) (writeOk : Bool) (s : AudioState)
    (b : List Sample) : Bool × AudioState :=
  if s.is_paused then (false, s)
  else
    let s1 := { s with
      frames := s.frames ++ [b]
      current_chunk_frames := s.current_chunk_frames ++ [b]
      current_chunk_duration :=
        s.current_chunk_duration + blockDuration s.channels s.sample_rate b
      captured := s.captured ++ b }
    if maxChunk ≤ s1.current_chunk_duration then
      if writeOk then (false, saveCurrentChunk s1) else (true, s1)
    else (false, s1)

/-- `start_recording`.  `dev = none` models the early `return False` when no
device index can be resolved; `dev = some (rate, maxInputChannels)` carries
the chosen device's parameters (the source falls back to 16000 Hz mono when
the device query itself raises, which is just another value of `dev`). -/
def start_recording (dev : Option (ℕ × ℕ)) (s : AudioState) : Bool × AudioState :=
  if s.is_recording ∧ ¬s.is_paused then (false, s)
  else
    match dev with
    | none => (false, s)
    | some (rate, maxCh) =>
        let s1 := { s with sample_rate := rate, channels := min 2 (max 1 maxCh) }
        let s2 :=
          if ¬s1.is_paused then
            { s1 with frames := [], current_chunk_frames := []
                      current_chunk_duration := 0 }
          else s1
        (true, { s2 with streamActive := true, is_recording := true, is_paused := false })

/-- `pause_recording`: only from live recording; stops the stream but keeps
it open. -/
def pause_recording (s : AudioState) : Bool × AudioState :=
  if s.is_recording ∧ ¬s.is_paused then
    (true, { s with is_paused := true, streamActive := false })
  else (false, s)

/-- `resume_recording`: only from paused recording; restarts the stream. -/
def resume_recording (s : AudioState) : Bool × AudioState :=
  if s.is_recording ∧ s.is_paused then
    (true, { s with is_paused := false, streamActive := true })
  else (false, s)

/-- `stop_recording`: close the stream, flush a pending partial chunk, and
leave the recording state. -/
def stop_recording (s : AudioState) : Bool × AudioState :=
  if ¬s.is_recording then (false, s)
  else
    let s1 := { s with streamActive := false }
    let s2 := if s1.current_chunk_frames ≠ [] then saveCurrentChunk s1 else s1
    (true, { s2 with is_recording := false, is_paused := false })

/-- `clear_recording`: stop any active stream, reset all buffers, and delete
every tracked temporary file from disk (`_cleanup_temp_files`).  The ghost
capture history is reset here and only here. -/
def clear_recording (s : AudioState) : Bool × AudioState :=
  (true,
    { s with
      is_recording := false, is_paused := false
      frames := [], current_chunk_frames := [], current_chunk_duration := 0
      streamActive := false
      disk := s.disk.filter (fun i => ¬ i ∈ s.temp_files.map TempFile.id)
      temp_files := []
      captured := [] })

/-- External events driving the recording session.  A `block` event is the
audio backend invoking `_audio_callback`; it can only fire while the stream
is active, hence the guard in `step`. -/
inductive AudioEvent
  | start (dev : Option (ℕ × ℕ))
  | block (b : List Sample)
  | pause
  | resume
  | stop
  | clear
deriving DecidableEq, Repr

def step (maxChunk : ℚ) (s : AudioState) : AudioEvent → AudioState
  | .start dev => (start_recording dev s).2
  | .block b => if s.streamActive then audioCallback maxChunk s b else s
  | .pause => (pause_recording s).2
  | .resume => (resume_recording s).2
  | .stop => (stop_recording s).2
  | .clear => (clear_recording s).2

/-- The state after a whole event trace, starting from a fresh manager. -/
def run (maxChunk : ℚ) (tr : List AudioEvent) : AudioState :=
  tr.foldl (step maxChunk) initState

/-! ### Device enumeration (`get_devices`) -/

/-- What `pyaudio` reports for one device index.  The device name is
abstracted to a number (the source only copies it through). -/
structure DeviceInfo where
  name : ℕ
  maxInputChannels : ℤ
  defaultSampleRate : ℚ
deriving DecidableEq, Repr

/-- One entry of the list returned by `get_devices`. -/
structure Device where
  index : ℕ
  name : ℕ
  channels : ℤ
  sample_rate : ℤ
deriving DecidableEq, Repr

/-- `int(...)` of a nonnegative rational (Python truncation; sample rates
are nonnegative so truncation and floor agree). -/
def pyInt (q : ℚ) : ℤ := ⌊q⌋

def mkDevice (i : ℕ) (d : DeviceInfo) : Device :=
  ⟨i, d.name, d.maxInputChannels, pyInt d.defaultSampleRate⟩

/-- `get_devices`, with the host modelled as the list of per-index results
of `get_device_info_by_index`: `Except.error ()` at a position means that
call raises there.  The loop body has no exception handling, so a raising
index aborts the whole enumeration (`Except.error`). -/
def get_devicesE (host : List (Except Unit DeviceInfo)) : Except Unit (List Device) :=
  go 0 host []
where
  go (i : ℕ) : List (Except Unit DeviceInfo) → List Device → Except Unit (List Device)
    | [], acc => .ok acc
    | .error e :: _, _ => .error e
    | .ok d :: rest, acc =>
        go (i + 1) rest (acc ++ if 0 < d.maxInputChannels then [mkDevice i d] else [])

/-! ### Assembly (`save_to_temp_file`) -/

/-- `_remove_silences` applied to a written WAV file, dispatching on the
file's channel count as the source does; returns the processed PCM payload
or `none`.  `chunk_samples = int(framerate * 0.1)`. -/
def removeSilencesFile (T : ℤ) (minDur : ℚ) (f : TempFile) : Option (List Sample) :=
  if f.channels = 2 then
    (removeSilencesStereo T minDur f.framerate (toPairs f.data)).map
      (fun rows => rows.flatMap fun p => [p.1, p.2])
  else removeSilencesMono T minDur f.framerate f.data

/-- `save_to_temp_file`.  Configuration is passed explicitly:
`scrub` is `scrub_silences`, `T`/`minDur` the silence parameters, `useMp3`
the requested format and `mp3Ok` whether MP3 transcoding succeeds (the
compressed payload itself is abstracted as a copy of the PCM data).
Returns the produced file (if any) and the updated state; every
intermediate file is appended to `temp_files` exactly as in the source. -/
def save_to_temp_file (scrub : Bool) (T : ℤ) (minDur : ℚ) (useMp3 mp3Ok : Bool)
    (s : AudioState) : Option TempFile × AudioState :=
  if s.frames = [] ∧ s.temp_files = [] then (none, s)
  else if s.temp_files ≠ [] then
    -- chunked path: flush a pending chunk, then concatenate all chunks
    let s1 := if s.current_chunk_frames ≠ [] then saveCurrentChunk s else s
    let first := s1.temp_files.headD ⟨0, 0, 0, 0, []⟩
    let combined : TempFile :=
      ⟨s1.nextId, first.channels, first.sampwidth, first.framerate,
        (s1.temp_files.map TempFile.data).flatten⟩
    let s2 := { s1 with temp_files := s1.temp_files ++ [combined]
                        disk := s1.disk ++ [combined.id], nextId := s1.nextId + 1 }
    let scrubbed : Option TempFile :=
      if scrub then
        (removeSilencesFile T minDur combined).map
          (fun d => ⟨s2.nextId, combined.channels, combined.sampwidth,
                     combined.framerate, d⟩)
      else none
    let cur := scrubbed.getD combined
    let s3 :=
      match scrubbed with
      | some pf =>
          { s2 with temp_files := s2.temp_files ++ [pf],
                    disk := s2.disk ++ [pf.id], nextId := s2.nextId + 1 }
      | none => s2
    if useMp3 ∧ mp3Ok then
      let mf : TempFile := ⟨s3.nextId, cur.channels, cur.sampwidth, cur.framerate, cur.data⟩
      (some mf, { s3 with temp_files := s3.temp_files ++ [mf]
                          disk := s3.disk ++ [mf.id], nextId := s3.nextId + 1 })
    else (some cur, s3)
  else
    -- frames-only path: write the in-memory frames directly
    let f : TempFile := ⟨s.nextId, s.channels, 2, s.sample_rate, s.frames.flatten⟩
    let s2 := { s with temp_files := s.temp_files ++ [f]
                       disk := s.disk ++ [f.id], nextId := s.nextId + 1 }
    let scrubbed : Option TempFile :=
      if scrub then
        (removeSilencesFile T minDur f).map
          (fun d => ⟨s2.nextId, f.channels, f.sampwidth, f.framerate, d⟩)
      else none
    let cur := scrubbed.getD f
    let s3 :=
      match scrubbed with
      | some pf =>
          { s2 with temp_files := s2.temp_files ++ [pf],
                    disk := s2.disk ++ [pf.id], nextId := s2.nextId + 1 }
      | none => s2
    if useMp3 ∧ mp3Ok then
      let mf : TempFile := ⟨s3.nextId, cur.channels, cur.sampwidth, cur.framerate, cur.data⟩
      (some mf, { s3 with temp_files := s3.temp_files ++ [mf]
                          disk := s3.disk ++ [mf.id], nextId := s3.nextId + 1 })
    else (some cur, s3)

/-- Run-structured recomputation of `silentRegions`: split off the leading
maximal run of silent flags.  `regionsFrom_eq_runRegions` proves it equal to
the left-to-right loop of the source. -/
def runRegions (qual : ℕ → Bool) (i : ℕ) : List Bool → List (ℕ × ℕ)
  | [] => []
  | false :: r => runRegions qual (i + 1) r
  | true :: r =>
      let n := (r.takeWhile (fun x => x)).length + 1
      (if qual n then [(i, i + n)] else []) ++
        runRegions qual (i + n) (r.dropWhile (fun x => x))
termination_by l => l.length
decreasing_by
  all_goals simp only [List.length_cons]
  all_goals first
    | exact Nat.lt_succ_self _
    | exact Nat.lt_succ_of_le (List.Sublist.length_le (List.dropWhile_sublist _))

/-- Scrub at the flag level: delete every maximal silent run that passes the
duration test, keep everything else. -/
def scrubFlags (qual : ℕ → Bool) : List Bool → List Bool
  | [] => []
  | false :: fl => false :: scrubFlags qual fl
  | true :: fl =>
      let t := fl.takeWhile (fun x => x)
      if qual (t.length + 1) then scrubFlags qual (fl.dropWhile (fun x => x))
      else (true :: t) ++ scrubFlags qual (fl.dropWhile (fun x => x))
termination_by l => l.length
decreasing_by
  all_goals simp only [List.length_cons]
  all_goals first
    | exact Nat.lt_succ_self _
    | exact Nat.lt_succ_of_le (List.Sublist.length_le (List.dropWhile_sublist _))

/-- Scrub at the chunk level, flags and chunks in parallel: drop the chunks
under a qualifying silent run, keep all others in order. -/
def scrubChunks (qual : ℕ → Bool) : List Bool → List (List α) → List (List α)
  | [], _ => []
  | _ :: _, [] => []
  | false :: fl, c :: cs => c :: scrubChunks qual fl cs
  | true :: fl, c :: cs =>
      let t := fl.takeWhile (fun x => x)
      if qual (t.length + 1) then
        scrubChunks qual (fl.dropWhile (fun x => x)) (cs.drop t.length)
      else
        (c :: cs.take t.length) ++
          scrubChunks qual (fl.dropWhile (fun x => x)) (cs.drop t.length)
termination_by fl _ => fl.length
decreasing_by
  all_goals simp only [List.length_cons]
  all_goals first
    | exact Nat.lt_succ_self _
    | exact Nat.lt_succ_of_le (List.Sublist.length_le (List.dropWhile_sublist _))

/-- Shape of a chunk partition: every slice has length `k` except the last,
which is nonempty and of length at most `k`. -/
def shapeK (k : ℕ) : List (List α) → Prop
  | [] => True
  | [c] => 0 < c.length ∧ c.length ≤ k
  | c :: d :: t => c.length = k ∧ shapeK k (d :: t)

/-- Invariant for lossless reconstruction: the chunk files in order,
followed by the unflushed in-memory frames, hold exactly the samples
captured since the last clear.  The two auxiliary conjuncts make the
invariant inductive: outside a recording session the in-memory buffer is
empty (so the reset in `start_recording` discards nothing), and the stream
is only ever active while recording. -/
def ReconInv (s : AudioState) : Prop :=
  ((s.temp_files.map TempFile.data).flatten ++ s.current_chunk_frames.flatten
      = s.captured)
  ∧ (s.is_recording = false → s.current_chunk_frames = [])
  ∧ (s.streamActive = true → s.is_recording = true)

/-- The accounted duration of a chunk file, `len(data)/channels/framerate`. -/
def chunkFileDuration (f : TempFile) : ℚ :=
  ((f.data.length : ℚ) / f.channels) / f.framerate

/-- C5 exactly as stated: every chunk file except possibly the final one has
duration in `(0, D]`. -/
def claimC5Holds (D : ℚ) (tr : List AudioEvent) : Prop :=
  ∀ f ∈ (run D tr).temp_files.dropLast,
    0 < chunkFileDuration f ∧ chunkFileDuration f ≤ D

/-! ### Proof machinery: run-structured view of flags and regions -/


theorem chunksOfGo_fuel (k : ℕ) (hk : k ≠ 0) :
    ∀ (fuel fuel' : ℕ) (l : List α), l.length ≤ fuel → l.length ≤ fuel' →
      chunksOfGo k fuel l = chunksOfGo k fuel' l := by
  intro fuel
  induction fuel with
  | zero =>
    intro fuel' l hf hf'
    have : l = [] := List.eq_nil_of_length_eq_zero (by omega)
    subst this
    cases fuel' <;> rfl
  | succ fuel ih =>
    intro fuel' l hf hf'
    match l with
    | [] => cases fuel' <;> rfl
    | a :: l =>
      match fuel' with
      | fuel' + 1 =>
        simp only [chunksOfGo]
        congr 1
        apply ih
        · simp only [List.length_drop, List.length_cons] at *
          omega
        · simp only [List.length_drop, List.length_cons] at *
          omega

theorem chunksOf_nil (k : ℕ) : chunksOf k ([] : List α) = [] := by
  unfold chunksOf
  split <;> rfl

theorem chunksOf_cons (k : ℕ) (l : List α) (hk : k ≠ 0) (hl : l ≠ []) :
    chunksOf k l = l.take k :: chunksOf k (l.drop k) := by
  match l with
  | a :: l =>
    unfold chunksOf
    rw [if_neg hk, if_neg hk]
    simp only [List.length_cons, chunksOfGo]
    congr 1
    apply chunksOfGo_fuel k hk
    · simp only [List.length_drop, List.length_cons]
      omega
    · exact le_refl _

theorem length_dropWhile_le (p : α → Bool) (l : List α) :
    (l.dropWhile p).length ≤ l.length :=
  (List.dropWhile_sublist p).length_le

theorem dropWhile_eq_drop (p : α → Bool) (l : List α) :
    l.dropWhile p = l.drop (l.takeWhile p).length := by
  induction l with
  | nil => rfl
  | cons a l ih =>
    by_cases h : p a
    · simp [List.dropWhile_cons, List.takeWhile_cons, h, ih]
    · simp [List.dropWhile_cons, List.takeWhile_cons, h]

theorem take_takeWhile_length (p : α → Bool) (l : List α) :
    l.take (l.takeWhile p).length = l.takeWhile p := by
  induction l with
  | nil => rfl
  | cons a l ih =>
    by_cases h : p a
    · simp [List.takeWhile_cons, h, ih]
    · simp [List.takeWhile_cons, h]

theorem mem_takeWhile_id {l : List Bool} {b : Bool}
    (h : b ∈ l.takeWhile (fun x => x)) : b = true := by
  simpa using List.mem_takeWhile_imp h

theorem dropWhile_id_shape (l : List Bool) :
    l.dropWhile (fun x => x) = [] ∨ ∃ w, l.dropWhile (fun x => x) = false :: w := by
  induction l with
  | nil => exact .inl rfl
  | cons a l ih =>
    cases a
    · exact .inr ⟨l, by simp [List.dropWhile_cons]⟩
    · simpa [List.dropWhile_cons] using ih

theorem takeWhile_id_all_true_append {t : List Bool} (ht : ∀ b ∈ t, b = true)
    (rest : List Bool) :
    (t ++ rest).takeWhile (fun x => x) = t ++ rest.takeWhile (fun x => x) := by
  induction t with
  | nil => rfl
  | cons a t ih =>
    have ha := ht a (by simp)
    subst ha
    simpa [List.takeWhile_cons] using ih (fun b hb => ht b (by simp [hb]))

theorem dropWhile_id_all_true_append {t : List Bool} (ht : ∀ b ∈ t, b = true)
    (rest : List Bool) :
    (t ++ rest).dropWhile (fun x => x) = rest.dropWhile (fun x => x) := by
  induction t with
  | nil => rfl
  | cons a t ih =>
    have ha := ht a (by simp)
    subst ha
    simpa [List.dropWhile_cons] using ih (fun b hb => ht b (by simp [hb]))


theorem runRegions_nil (qual : ℕ → Bool) (i : ℕ) : runRegions qual i [] = [] := by
  simp [runRegions]

theorem runRegions_false (qual : ℕ → Bool) (i : ℕ) (r : List Bool) :
    runRegions qual i (false :: r) = runRegions qual (i + 1) r := by
  simp [runRegions]

theorem runRegions_true (qual : ℕ → Bool) (i : ℕ) (r : List Bool) :
    runRegions qual i (true :: r) =
      (if qual ((r.takeWhile (fun x => x)).length + 1) then
          [(i, i + ((r.takeWhile (fun x => x)).length + 1))] else []) ++
        runRegions qual (i + ((r.takeWhile (fun x => x)).length + 1))
          (r.dropWhile (fun x => x)) := by
  simp [runRegions]

theorem scrubFlags_nil (qual : ℕ → Bool) : scrubFlags qual [] = [] := by
  simp [scrubFlags]

theorem scrubFlags_false (qual : ℕ → Bool) (fl : List Bool) :
    scrubFlags qual (false :: fl) = false :: scrubFlags qual fl := by
  simp [scrubFlags]

theorem scrubFlags_true (qual : ℕ → Bool) (fl : List Bool) :
    scrubFlags qual (true :: fl) =
      if qual ((fl.takeWhile (fun x => x)).length + 1) then
        scrubFlags qual (fl.dropWhile (fun x => x))
      else (true :: fl.takeWhile (fun x => x)) ++
        scrubFlags qual (fl.dropWhile (fun x => x)) := by
  simp [scrubFlags]

theorem scrubChunks_nil (qual : ℕ → Bool) (cs : List (List α)) :
    scrubChunks qual [] cs = [] := by
  simp [scrubChunks]

theorem scrubChunks_false (qual : ℕ → Bool) (fl : List Bool) (c : List α)
    (cs : List (List α)) :
    scrubChunks qual (false :: fl) (c :: cs) = c :: scrubChunks qual fl cs := by
  simp [scrubChunks]

theorem scrubChunks_true (qual : ℕ → Bool) (fl : List Bool) (c : List α)
    (cs : List (List α)) :
    scrubChunks qual (true :: fl) (c :: cs) =
      if qual ((fl.takeWhile (fun x => x)).length + 1) then
        scrubChunks qual (fl.dropWhile (fun x => x))
          (cs.drop (fl.takeWhile (fun x => x)).length)
      else (c :: cs.take (fl.takeWhile (fun x => x)).length) ++
        scrubChunks qual (fl.dropWhile (fun x => x))
          (cs.drop (fl.takeWhile (fun x => x)).length) := by
  simp [scrubChunks]

/-- Every region produced by `runRegions` starts at or after the running
index. -/
theorem runRegions_start_le (qual : ℕ → Bool) :
    ∀ (m : ℕ) (l : List Bool) (i : ℕ), l.length ≤ m →
      ∀ p ∈ runRegions qual i l, i ≤ p.1 := by
  intro m
  induction m with
  | zero =>
    intro l i hl p hp
    have : l = [] := List.eq_nil_of_length_eq_zero (by omega)
    subst this
    simp [runRegions_nil] at hp
  | succ m ih =>
    intro l i hl p hp
    match l with
    | [] => simp [runRegions_nil] at hp
    | false :: r =>
      rw [runRegions_false] at hp
      have := ih r (i + 1) (by simpa using hl) p hp
      omega
    | true :: r =>
      rw [runRegions_true] at hp
      rcases List.mem_append.mp hp with h | h
      · by_cases hq : qual ((r.takeWhile (fun x => x)).length + 1)
        · simp only [hq, if_true, List.mem_singleton] at h
          subst h
          simp
        · simp [hq] at h
      · have hlen : (r.dropWhile (fun x => x)).length ≤ m := by
          have := length_dropWhile_le (fun x : Bool => x) r
          simp at hl
          omega
        have := ih _ _ hlen p h
        omega

/-- `regionsFrom` over an all-true prefix advances the index and keeps the
pending start. -/
theorem regionsFrom_all_true (qual : ℕ → Bool) {t : List Bool}
    (ht : ∀ b ∈ t, b = true) (rest : List Bool) (j s : ℕ) :
    regionsFrom qual (t ++ rest) j (some s) =
      regionsFrom qual rest (j + t.length) (some s) := by
  induction t generalizing j with
  | nil => simp
  | cons a t ih =>
    have ha := ht a (by simp)
    subst ha
    have h1 : regionsFrom qual ((true :: t) ++ rest) j (some s) =
        regionsFrom qual (t ++ rest) (j + 1) (some s) := by
      simp [regionsFrom]
    rw [h1, ih (fun b hb => ht b (by simp [hb])) (j + 1)]
    have harith : j + 1 + t.length = j + (t.length + 1) := by omega
    rw [harith]
    simp

/-- The source's left-to-right region loop computes exactly the
run-structured regions: the maximal runs of silent flags that pass the
duration test, with their frame-index intervals. -/
theorem regionsFrom_eq_runRegions (qual : ℕ → Bool) :
    ∀ (m : ℕ) (l : List Bool) (i : ℕ), l.length ≤ m →
      regionsFrom qual l i none = runRegions qual i l := by
  intro m
  induction m with
  | zero =>
    intro l i hl
    have : l = [] := List.eq_nil_of_length_eq_zero (by omega)
    subst this
    simp [regionsFrom, runRegions_nil]
  | succ m ih =>
    intro l i hl
    match l with
    | [] => simp [regionsFrom, runRegions_nil]
    | false :: r =>
      rw [runRegions_false]
      have h1 : regionsFrom qual (false :: r) i none = regionsFrom qual r (i + 1) none := by
        simp [regionsFrom]
      rw [h1, ih r (i + 1) (by simpa using hl)]
    | true :: r =>
      rw [runRegions_true]
      have h1 : regionsFrom qual (true :: r) i none = regionsFrom qual r (i + 1) (some i) := by
        simp [regionsFrom]
      rw [h1]
      conv_lhs => rw [← List.takeWhile_append_dropWhile (p := fun x : Bool => x) (l := r)]
      rw [regionsFrom_all_true qual (fun b hb => mem_takeWhile_id hb) _ (i + 1) i]
      rcases dropWhile_id_shape r with hnil | ⟨w, hw⟩
      · rw [hnil, runRegions_nil]
        have e1 : i + 1 + (r.takeWhile (fun x => x)).length - i
            = (r.takeWhile (fun x => x)).length + 1 := by omega
        have e2 : i + 1 + (r.takeWhile (fun x => x)).length
            = i + ((r.takeWhile (fun x => x)).length + 1) := by omega
        have e3 : i + ((r.takeWhile (fun x => x)).length + 1) - i
            = (r.takeWhile (fun x => x)).length + 1 := by omega
        simp only [regionsFrom, e1, e2, e3, List.append_nil]
      · rw [hw, runRegions_false]
        have hwlen : w.length ≤ m := by
          have h2 := length_dropWhile_le (fun x : Bool => x) r
          rw [hw] at h2
          simp at h2 hl
          omega
        have e1 : i + 1 + (r.takeWhile (fun x => x)).length - i
            = (r.takeWhile (fun x => x)).length + 1 := by omega
        have e2 : i + 1 + (r.takeWhile (fun x => x)).length
            = i + ((r.takeWhile (fun x => x)).length + 1) := by omega
        have e3 : i + ((r.takeWhile (fun x => x)).length + 1) - i
            = (r.takeWhile (fun x => x)).length + 1 := by omega
        simp only [regionsFrom, e1, e2, e3, Bool.false_eq_true, if_false]
        rw [ih w _ hwlen]

/-- After a flag-level scrub no qualifying silent run remains: the kept
silent runs are exactly the non-qualifying maximal runs of the input,
separated by the non-silent flags that always survive. -/
theorem runRegions_scrubFlags (qual : ℕ → Bool) :
    ∀ (m : ℕ) (fl : List Bool) (i : ℕ), fl.length ≤ m →
      runRegions qual i (scrubFlags qual fl) = [] := by
  intro m
  induction m with
  | zero =>
    intro fl i hl
    have : fl = [] := List.eq_nil_of_length_eq_zero (by omega)
    subst this
    rw [scrubFlags_nil, runRegions_nil]
  | succ m ih =>
    intro fl i hl
    match fl with
    | [] => rw [scrubFlags_nil, runRegions_nil]
    | false :: fl' =>
      rw [scrubFlags_false, runRegions_false]
      exact ih fl' (i + 1) (by simpa using hl)
    | true :: fl' =>
      rw [scrubFlags_true]
      have hlen' : (fl'.dropWhile (fun x => x)).length ≤ m := by
        have := length_dropWhile_le (fun x : Bool => x) fl'
        simp at hl
        omega
      by_cases hq : qual ((fl'.takeWhile (fun x => x)).length + 1)
      · rw [if_pos hq]
        exact ih _ i hlen'
      · rw [if_neg hq]
        -- the kept run `true :: takeWhile` is followed by the scrub of the
        -- remainder, which is empty or starts with a non-silent flag
        have hS : scrubFlags qual (fl'.dropWhile (fun x => x)) = [] ∨
            ∃ w, scrubFlags qual (fl'.dropWhile (fun x => x)) = false :: w := by
          rcases dropWhile_id_shape fl' with hnil | ⟨w, hw⟩
          · rw [hnil, scrubFlags_nil]; exact .inl rfl
          · rw [hw, scrubFlags_false]; exact .inr ⟨_, rfl⟩
        have htw : (scrubFlags qual (fl'.dropWhile (fun x => x))).takeWhile (fun x => x) = [] := by
          rcases hS with h | ⟨w, h⟩ <;> simp [h, List.takeWhile_cons]
        have hdw : (scrubFlags qual (fl'.dropWhile (fun x => x))).dropWhile (fun x => x)
            = scrubFlags qual (fl'.dropWhile (fun x => x)) := by
          rcases hS with h | ⟨w, h⟩ <;> simp [h, List.dropWhile_cons]
        have hmem : ∀ b ∈ fl'.takeWhile (fun x => x), b = true :=
          fun b hb => mem_takeWhile_id hb
        rw [List.cons_append, runRegions_true,
          takeWhile_id_all_true_append hmem, htw, List.append_nil,
          dropWhile_id_all_true_append hmem, hdw, if_neg hq, List.nil_append]
        exact ih _ _ hlen'

/-- Scrubbing chunks and then recomputing the flags gives the flag-level
scrub: the surviving frames carry their original silence verdicts. -/
theorem map_scrubChunks (qual : ℕ → Bool) (flagF : List α → Bool) :
    ∀ (m : ℕ) (fl : List Bool) (cs : List (List α)), fl.length ≤ m →
      fl = cs.map flagF →
      (scrubChunks qual fl cs).map flagF = scrubFlags qual fl := by
  intro m
  induction m with
  | zero =>
    intro fl cs hl hfl
    have : fl = [] := List.eq_nil_of_length_eq_zero (by omega)
    subst this
    rw [scrubChunks_nil, scrubFlags_nil, List.map_nil]
  | succ m ih =>
    intro fl cs hl hfl
    match fl, cs with
    | [], _ => rw [scrubChunks_nil, scrubFlags_nil, List.map_nil]
    | b :: fl', [] => simp at hfl
    | b :: fl', c :: cs' =>
      rw [List.map_cons] at hfl
      obtain ⟨hb, hfl'⟩ : b = flagF c ∧ fl' = cs'.map flagF := by
        exact ⟨by injection hfl, by injection hfl⟩
      cases hbv : b with
      | false =>
        subst hbv
        rw [scrubChunks_false, scrubFlags_false, List.map_cons, ← hb,
          ih fl' cs' (by simpa using hl) hfl']
      | true =>
        subst hbv
        have hdw : fl'.dropWhile (fun x => x) = (cs'.drop (fl'.takeWhile (fun x => x)).length).map flagF := by
          rw [dropWhile_eq_drop, hfl', List.map_drop]
        have hlen' : (fl'.dropWhile (fun x => x)).length ≤ m := by
          have := length_dropWhile_le (fun x : Bool => x) fl'
          simp at hl
          omega
        rw [scrubChunks_true, scrubFlags_true]
        by_cases hq : qual ((fl'.takeWhile (fun x => x)).length + 1)
        · rw [if_pos hq, if_pos hq, ih _ _ hlen' hdw]
        · rw [if_neg hq, if_neg hq, List.map_append, List.map_cons,
            ih _ _ hlen' hdw, List.map_take, ← hfl', take_takeWhile_length, ← hb]

/-- The chunk-level scrub only deletes chunks: its result is a sublist. -/
theorem scrubChunks_sublist (qual : ℕ → Bool) :
    ∀ (m : ℕ) (fl : List Bool) (cs : List (List α)), fl.length ≤ m →
      List.Sublist (scrubChunks qual fl cs) cs := by
  intro m
  induction m with
  | zero =>
    intro fl cs hl
    have : fl = [] := List.eq_nil_of_length_eq_zero (by omega)
    subst this
    rw [scrubChunks_nil]
    exact List.nil_sublist cs
  | succ m ih =>
    intro fl cs hl
    match fl, cs with
    | [], _ =>
      rw [scrubChunks_nil]
      exact List.nil_sublist _
    | b :: fl', [] => simp [scrubChunks]
    | b :: fl', c :: cs' =>
      have hlfl' : fl'.length ≤ m := by simpa using hl
      have hlen' : (fl'.dropWhile (fun x => x)).length ≤ m := by
        have := length_dropWhile_le (fun x : Bool => x) fl'
        omega
      cases b with
      | false =>
        rw [scrubChunks_false]
        exact (ih fl' cs' hlfl').cons₂ c
      | true =>
        rw [scrubChunks_true]
        by_cases hq : qual ((fl'.takeWhile (fun x => x)).length + 1)
        · rw [if_pos hq]
          exact ((ih _ _ hlen').trans (List.drop_sublist _ cs')).cons c
        · rw [if_neg hq, List.cons_append]
          refine List.Sublist.cons₂ c ?_
          have h1 := List.Sublist.append_left
            (ih (fl'.dropWhile (fun x => x))
              (cs'.drop (fl'.takeWhile (fun x => x)).length) hlen')
            (cs'.take (fl'.takeWhile (fun x => x)).length)
          rw [List.take_append_drop] at h1
          exact h1

/-- `shapeK` facts. -/
theorem shapeK_cons_of_ne (k : ℕ) (c : List α) {L : List (List α)} (hL : L ≠ []) :
    shapeK k (c :: L) ↔ c.length = k ∧ shapeK k L := by
  match L with
  | d :: t => exact Iff.rfl

theorem shapeK_tail (k : ℕ) (c : List α) (L : List (List α)) :
    shapeK k (c :: L) → shapeK k L := by
  match L with
  | [] => exact fun _ => trivial
  | d :: t => exact fun h => h.2

theorem shapeK_of_sublist {k : ℕ} (hk : 0 < k) {S L : List (List α)}
    (hs : List.Sublist S L) (h : shapeK k L) : shapeK k S := by
  induction hs with
  | slnil => trivial
  | cons a hs ih => exact ih (shapeK_tail k a _ h)
  | @cons₂ S' L' a hs ih =>
    match L' with
    | [] =>
      have : S' = [] := List.sublist_nil.mp hs
      subst this
      exact h
    | d :: t =>
      obtain ⟨hak, hL'⟩ := (shapeK_cons_of_ne k a (by simp)).mp h
      have hS' := ih hL'
      match S' with
      | [] => exact ⟨by omega, by omega⟩
      | e :: u => exact (shapeK_cons_of_ne k a (by simp)).mpr ⟨hak, hS'⟩

theorem chunksOf_ne_nil {k : ℕ} (hk : k ≠ 0) {l : List α} (hl : l ≠ []) :
    chunksOf k l ≠ [] := by
  rw [chunksOf_cons k l hk hl]
  simp

/-- The chunk partition of a nonempty signal has the standard shape: all
slices of length `k`, except a final nonempty slice of length at most `k`. -/
theorem shapeK_chunksOf (k : ℕ) (hk : 0 < k) :
    ∀ (m : ℕ) (l : List α), l.length ≤ m → l ≠ [] → shapeK k (chunksOf k l) := by
  intro m
  induction m with
  | zero =>
    intro l hl hne
    have : l = [] := List.eq_nil_of_length_eq_zero (by omega)
    exact absurd this hne
  | succ m ih =>
    intro l hl hne
    rw [chunksOf_cons k l (by omega) hne]
    by_cases hd : l.drop k = []
    · rw [hd, chunksOf_nil]
      constructor
      · simp [List.length_take]
        exact ⟨by omega, List.length_pos.mpr hne⟩
      · simp [List.length_take]
    · have hlk : k < l.length := by
        by_contra hcon
        exact hd (List.drop_of_length_le (by omega))
      have hdl : (l.drop k).length ≤ m := by
        simp only [List.length_drop]
        omega
      rw [shapeK_cons_of_ne k _ (chunksOf_ne_nil (by omega) hd)]
      constructor
      · simp [List.length_take]
        omega
      · exact ih (l.drop k) hdl hd

/-- Concatenating the chunk partition recovers the signal. -/
theorem flatten_chunksOf (k : ℕ) (hk : k ≠ 0) :
    ∀ (m : ℕ) (l : List α), l.length ≤ m → (chunksOf k l).flatten = l := by
  intro m
  induction m with
  | zero =>
    intro l hl
    have : l = [] := List.eq_nil_of_length_eq_zero (by omega)
    subst this
    rw [chunksOf_nil]
    rfl
  | succ m ih =>
    intro l hl
    by_cases hne : l = []
    · subst hne
      rw [chunksOf_nil]
      rfl
    · rw [chunksOf_cons k l hk hne, List.flatten_cons,
        ih (l.drop k) (by simp [List.length_drop]; omega)]
      exact List.take_append_drop k l

/-- A shaped partition is nonempty-concatenation: its flatten is nonempty
when it is. -/
theorem flatten_ne_nil_of_shapeK {k : ℕ} (hk : 0 < k) :
    ∀ {L : List (List α)}, shapeK k L → L ≠ [] → L.flatten ≠ [] := by
  intro L hsh hne
  match L with
  | [c] =>
    obtain ⟨h1, _⟩ := hsh
    simp only [List.flatten_cons, List.flatten_nil, List.append_nil]
    exact List.length_pos.mp h1
  | c :: d :: t =>
    obtain ⟨h1, _⟩ := hsh
    simp only [List.flatten_cons]
    intro hcon
    have := List.append_eq_nil.mp hcon
    have : c.length = 0 := by rw [this.1]; rfl
    omega

/-- Re-partitioning the concatenation of a shaped chunk list recovers the
chunk list itself. -/
theorem chunksOf_flatten_of_shapeK {k : ℕ} (hk : 0 < k) :
    ∀ (L : List (List α)), shapeK k L → chunksOf k L.flatten = L := by
  intro L
  induction L with
  | nil => intro _; rw [List.flatten_nil, chunksOf_nil]
  | cons c L' ih =>
    intro hsh
    match L' with
    | [] =>
      obtain ⟨h1, h2⟩ := hsh
      have hcne : c ≠ [] := List.length_pos.mp h1
      simp only [List.flatten_cons, List.flatten_nil, List.append_nil]
      rw [chunksOf_cons k c (by omega) hcne, List.take_of_length_le h2,
        List.drop_of_length_le h2, chunksOf_nil]
    | d :: t =>
      obtain ⟨h1, hsh'⟩ := hsh
      have hR := flatten_ne_nil_of_shapeK hk hsh' (by simp)
      have hne : c ++ (d :: t).flatten ≠ [] := by
        intro hcon
        exact hR (List.append_eq_nil.mp hcon).2
      simp only [List.flatten_cons] at *
      rw [chunksOf_cons k _ (by omega) hne, List.take_left' h1, List.drop_left' h1,
        ih hsh']

/-- Length of the concatenation of the first `a` slices of a shaped
partition: `min (a*k)` of the total length. -/
theorem flatten_take_length {k : ℕ} :
    ∀ (CS : List (List α)), shapeK k CS → ∀ a, a ≤ CS.length →
      ((CS.take a).flatten).length = min (a * k) CS.flatten.length := by
  intro CS
  induction CS with
  | nil =>
    intro _ a ha
    have : a = 0 := by simpa using ha
    subst this
    simp
  | cons c L' ih =>
    intro hsh a ha
    match a with
    | 0 => simp
    | a' + 1 =>
      match L' with
      | [] =>
        have : a' = 0 := by simp at ha; omega
        subst this
        obtain ⟨h1, h2⟩ := hsh
        simp [Nat.one_mul]
        omega
      | d :: t =>
        obtain ⟨h1, hsh'⟩ := hsh
        have ha' : a' ≤ (d :: t).length := by simpa using ha
        have ihh := ih hsh' a' ha'
        have hX : ((c :: d :: t).flatten).length = k + ((d :: t).flatten).length := by
          rw [List.flatten_cons, List.length_append, h1]
        rw [List.take_succ_cons, List.flatten_cons, List.length_append, h1, ihh, hX,
          Nat.succ_mul]
        omega

/-- Before the last slice, prefix lengths are exact multiples of `k`. -/
theorem flatten_take_length_lt {k : ℕ} :
    ∀ (CS : List (List α)), shapeK k CS → ∀ a, a < CS.length →
      ((CS.take a).flatten).length = a * k := by
  intro CS
  induction CS with
  | nil =>
    intro _ a ha
    simp at ha
  | cons c L' ih =>
    intro hsh a ha
    match a with
    | 0 => simp
    | a' + 1 =>
      match L' with
      | [] => simp at ha
      | d :: t =>
        obtain ⟨h1, hsh'⟩ := hsh
        have ha' : a' < (d :: t).length := by simpa using ha
        rw [List.take_succ_cons, List.flatten_cons, List.length_append, h1,
          ih hsh' a' ha', Nat.succ_mul]
        omega

/-- The slice of the concatenation between the cumulative offsets of chunk
`a` and chunk `a + b` is exactly the concatenation of chunks `a..a+b-1`. -/
theorem slice_chunks {k : ℕ} (CS : List (List α)) (hsh : shapeK k CS)
    (a b : ℕ) (hab : a + b ≤ CS.length) :
    ((CS.flatten).drop (min (a * k) CS.flatten.length)).take
        (min ((a + b) * k) CS.flatten.length - min (a * k) CS.flatten.length) =
      ((CS.drop a).take b).flatten := by
  have ha : a ≤ CS.length := by omega
  have h1 : CS.flatten = (CS.take a).flatten ++ (CS.drop a).flatten := by
    rw [← List.flatten_append, List.take_append_drop]
  have h2 : (CS.flatten).drop (min (a * k) CS.flatten.length) = (CS.drop a).flatten := by
    rw [← flatten_take_length CS hsh a ha, h1, List.drop_left]
  have h3 : (CS.drop a).flatten =
      ((CS.drop a).take b).flatten ++ ((CS.drop a).drop b).flatten := by
    rw [← List.flatten_append, List.take_append_drop]
  have h4 : CS.take (a + b) = CS.take a ++ (CS.drop a).take b := List.take_add CS a b
  have h5 : min ((a + b) * k) CS.flatten.length =
      min (a * k) CS.flatten.length + (((CS.drop a).take b).flatten).length := by
    have := flatten_take_length CS hsh (a + b) hab
    rw [h4, List.flatten_append, List.length_append,
      flatten_take_length CS hsh a ha] at this
    omega
  rw [h2, h3, h5]
  have h6 : min (a * k) CS.flatten.length + (((CS.drop a).take b).flatten).length -
      min (a * k) CS.flatten.length = (((CS.drop a).take b).flatten).length := by
    omega
  rw [h6, List.take_left]

/-- Splitting a slice of `data` at an intermediate offset. -/
theorem slice_split (data : List α) (l m u : ℕ) (hlm : l ≤ m) (hmu : m ≤ u) :
    (data.drop l).take (u - l) =
      (data.drop l).take (m - l) ++ (data.drop m).take (u - m) := by
  have h1 : u - l = (m - l) + (u - m) := by omega
  have h2 : data.drop m = (data.drop l).drop (m - l) := by
    rw [List.drop_drop]
    congr 1
    omega
  rw [h1, List.take_add, h2]

/-- Peeling the excision loop forward to a larger `last_end` that still lies
at or before every remaining region start. -/
theorem removeRegionsGo_shift (k n : ℕ) (data : List α) :
    ∀ (regs : List (ℕ × ℕ)) (l m : ℕ), l ≤ m →
      (∀ p ∈ regs, m ≤ p.1 * k) →
      removeRegionsGo k n data l regs =
        (data.drop l).take (m - l) ++ removeRegionsGo k n data m regs := by
  intro regs
  induction regs with
  | nil =>
    intro l m hlm hregs
    simp only [removeRegionsGo]
    have h1 : data.drop m = (data.drop l).drop (m - l) := by
      rw [List.drop_drop]
      congr 1
      omega
    rw [h1, List.take_append_drop]
  | cons p rest ih =>
    intro l m hlm hregs
    obtain ⟨s, e⟩ := p
    have hsk : m ≤ s * k := hregs (s, e) (by simp)
    simp only [removeRegionsGo]
    rw [slice_split data l m (s * k) hlm hsk, List.append_assoc]

theorem length_takeWhile_le (p : α → Bool) (l : List α) :
    (l.takeWhile p).length ≤ l.length :=
  (List.takeWhile_sublist p).length_le

/-- Excision past the end of the flags drops the remaining (empty) tail. -/
theorem go_scrub_empty {k : ℕ} (qual : ℕ → Bool) (CS : List (List α))
    (hsh : shapeK k CS) (a : ℕ) (hge : CS.length ≤ a) :
    removeRegionsGo k CS.flatten.length CS.flatten
        (min (a * k) CS.flatten.length) (runRegions qual a []) = [] := by
  rw [runRegions_nil]
  simp only [removeRegionsGo]
  have hn : CS.flatten.length ≤ CS.length * k := by
    have h := flatten_take_length CS hsh CS.length (le_refl _)
    rw [List.take_of_length_le (le_refl _)] at h
    omega
  have hak : CS.length * k ≤ a * k := Nat.mul_le_mul_right k hge
  have hmin : min (a * k) CS.flatten.length = CS.flatten.length := by omega
  rw [hmin, List.drop_length]

/-- Central glue: running the source's excision loop on the regions of the
remaining flags, with `last_end` at the cumulative offset of chunk `a`,
yields exactly the concatenation of the chunks kept by the run-structured
scrub. -/
theorem go_runRegions_scrubChunks {k : ℕ} (hk : 0 < k) (qual : ℕ → Bool)
    (CS : List (List α)) (hsh : shapeK k CS) :
    ∀ (m : ℕ) (fl2 : List Bool) (cs2 : List (List α)) (a : ℕ),
      fl2.length ≤ m → fl2.length = cs2.length → CS.drop a = cs2 →
      removeRegionsGo k CS.flatten.length CS.flatten
          (min (a * k) CS.flatten.length) (runRegions qual a fl2) =
        (scrubChunks qual fl2 cs2).flatten := by
  intro m
  induction m with
  | zero =>
    intro fl2 cs2 a hm hlen hdrop
    have h0 : fl2 = [] := List.eq_nil_of_length_eq_zero (by omega)
    subst h0
    have h1 : cs2 = [] := List.eq_nil_of_length_eq_zero (by omega)
    subst h1
    rw [scrubChunks_nil, List.flatten_nil]
    exact go_scrub_empty qual CS hsh a (by rw [← List.drop_eq_nil_iff]; exact hdrop)
  | succ m ih =>
    intro fl2 cs2 a hm hlen hdrop
    cases fl2 with
    | nil =>
      have h1 : cs2 = [] := List.eq_nil_of_length_eq_zero (by simp at hlen; omega)
      subst h1
      rw [scrubChunks_nil, List.flatten_nil]
      exact go_scrub_empty qual CS hsh a (by rw [← List.drop_eq_nil_iff]; exact hdrop)
    | cons b fl' =>
      cases cs2 with
      | nil => simp at hlen
      | cons c cs' =>
        have ha : a < CS.length := by
          by_contra hcon
          have : CS.drop a = [] := List.drop_of_length_le (by omega)
          rw [hdrop] at this
          exact absurd this (by simp)
        have hdrop1 : CS.drop (a + 1) = cs' := by
          rw [← List.tail_drop, hdrop]
          rfl
        have hminak : min (a * k) CS.flatten.length = a * k := by
          have h1 := flatten_take_length CS hsh a (le_of_lt ha)
          have h2 := flatten_take_length_lt CS hsh a ha
          omega
        cases b with
        | false =>
          rw [runRegions_false, scrubChunks_false, List.flatten_cons]
          have hbound : ∀ p ∈ runRegions qual (a + 1) fl',
              min ((a + 1) * k) CS.flatten.length ≤ p.1 * k := by
            intro p hp
            have h1 := runRegions_start_le qual fl'.length fl' (a + 1) (le_refl _) p hp
            have h2 : (a + 1) * k ≤ p.1 * k := Nat.mul_le_mul_right k h1
            have := min_le_left ((a + 1) * k) CS.flatten.length
            omega
          have hmono : min (a * k) CS.flatten.length ≤ min ((a + 1) * k) CS.flatten.length := by
            have : a * k ≤ (a + 1) * k := Nat.mul_le_mul_right k (by omega)
            omega
          rw [removeRegionsGo_shift k CS.flatten.length CS.flatten _ _ _ hmono hbound]
          have hsl := slice_chunks CS hsh a 1 (by omega)
          rw [hdrop] at hsl
          have hsl' : ((c :: cs').take 1).flatten = c := by simp
          rw [hsl' ] at hsl
          rw [hsl, ih fl' cs' (a + 1) (by simpa using hm) (by simpa using hlen) hdrop1]
        | true =>
          have hLle : (fl'.takeWhile (fun x => x)).length ≤ fl'.length :=
            length_takeWhile_le _ fl'
          have hfl'' : (fl'.dropWhile (fun x => x)).length
              = fl'.length - (fl'.takeWhile (fun x => x)).length := by
            rw [dropWhile_eq_drop, List.length_drop]
          have hm' : (fl'.dropWhile (fun x => x)).length ≤ m := by
            simp only [List.length_cons] at hm
            omega
          have hlen' : (fl'.dropWhile (fun x => x)).length
              = (cs'.drop (fl'.takeWhile (fun x => x)).length).length := by
            simp only [List.length_drop, hfl'']
            simp only [List.length_cons] at hlen
            omega
          have hdrop2 : CS.drop (a + ((fl'.takeWhile (fun x => x)).length + 1))
              = cs'.drop (fl'.takeWhile (fun x => x)).length := by
            have h9 : a + ((fl'.takeWhile (fun x => x)).length + 1)
                = (a + 1) + (fl'.takeWhile (fun x => x)).length := by omega
            rw [h9, List.drop_add, hdrop1]
          have har : a + ((fl'.takeWhile (fun x => x)).length + 1) ≤ CS.length := by
            have h9 : (CS.drop a).length = CS.length - a := List.length_drop a CS
            rw [hdrop] at h9
            simp only [List.length_cons] at h9 hlen
            omega
          rw [runRegions_true, scrubChunks_true]
          by_cases hq : qual ((fl'.takeWhile (fun x => x)).length + 1)
          · rw [if_pos hq, if_pos hq]
            simp only [List.singleton_append, removeRegionsGo]
            rw [hminak, Nat.sub_self, List.take_zero, List.nil_append]
            have hmhm : min ((a + ((fl'.takeWhile (fun x => x)).length + 1)) * k)
                CS.flatten.length = min ((a + ((fl'.takeWhile (fun x => x)).length + 1)) * k)
                CS.flatten.length := rfl
            exact ih _ _ _ hm' hlen' hdrop2
          · rw [if_neg hq, if_neg hq, List.nil_append]
            have hbound : ∀ p ∈ runRegions qual
                (a + ((fl'.takeWhile (fun x => x)).length + 1)) (fl'.dropWhile (fun x => x)),
                min ((a + ((fl'.takeWhile (fun x => x)).length + 1)) * k)
                  CS.flatten.length ≤ p.1 * k := by
              intro p hp
              have h1 := runRegions_start_le qual (fl'.dropWhile (fun x => x)).length
                (fl'.dropWhile (fun x => x)) _ (le_refl _) p hp
              have h2 : (a + ((fl'.takeWhile (fun x => x)).length + 1)) * k ≤ p.1 * k :=
                Nat.mul_le_mul_right k h1
              have := min_le_left ((a + ((fl'.takeWhile (fun x => x)).length + 1)) * k)
                CS.flatten.length
              omega
            have hmono : min (a * k) CS.flatten.length ≤
                min ((a + ((fl'.takeWhile (fun x => x)).length + 1)) * k)
                  CS.flatten.length := by
              have : a * k ≤ (a + ((fl'.takeWhile (fun x => x)).length + 1)) * k :=
                Nat.mul_le_mul_right k (by omega)
              omega
            rw [removeRegionsGo_shift k CS.flatten.length CS.flatten _ _ _ hmono hbound]
            have hsl := slice_chunks CS hsh a ((fl'.takeWhile (fun x => x)).length + 1) har
            rw [hdrop] at hsl
            have hsl' : ((c :: cs').take ((fl'.takeWhile (fun x => x)).length + 1)).flatten
                = c ++ (cs'.take (fl'.takeWhile (fun x => x)).length).flatten := by
              rw [List.take_succ_cons, List.flatten_cons]
            rw [hsl'] at hsl
            rw [hsl, ih _ _ _ hm' hlen' hdrop2, List.cons_append, List.flatten_cons,
              List.flatten_append, List.append_assoc]

/-! ### Recorder invariants -/


theorem ReconInv_init : ReconInv initState := by
  refine ⟨?_, fun _ => rfl, fun h => by simp [initState] at h⟩
  simp [initState]

theorem saveCurrentChunk_is_recording (s : AudioState) :
    (saveCurrentChunk s).is_recording = s.is_recording := by
  unfold saveCurrentChunk
  split <;> rfl

theorem saveCurrentChunk_is_paused (s : AudioState) :
    (saveCurrentChunk s).is_paused = s.is_paused := by
  unfold saveCurrentChunk
  split <;> rfl

theorem saveCurrentChunk_captured (s : AudioState) :
    (saveCurrentChunk s).captured = s.captured := by
  unfold saveCurrentChunk
  split <;> rfl

theorem saveCurrentChunk_streamActive (s : AudioState) :
    (saveCurrentChunk s).streamActive = s.streamActive := by
  unfold saveCurrentChunk
  split <;> rfl

theorem saveCurrentChunk_frames (s : AudioState) :
    (saveCurrentChunk s).frames = s.frames := by
  unfold saveCurrentChunk
  split <;> rfl

theorem saveCurrentChunk_flatten (s : AudioState) :
    ((saveCurrentChunk s).temp_files.map TempFile.data).flatten ++
        (saveCurrentChunk s).current_chunk_frames.flatten =
      (s.temp_files.map TempFile.data).flatten ++ s.current_chunk_frames.flatten := by
  unfold saveCurrentChunk
  split
  · rfl
  · simp

/- Characterizations of each manager method by case analysis, used both for
the invariants and for the per-claim theorems. -/

theorem start_recording_busy (dev : Option (ℕ × ℕ)) (s : AudioState)
    (hr : s.is_recording = true) (hp : s.is_paused = false) :
    start_recording dev s = (false, s) := by
  unfold start_recording
  rw [if_pos ⟨hr, by simp [hp]⟩]

theorem start_recording_none (s : AudioState) :
    start_recording none s = (false, s) := by
  unfold start_recording
  split <;> rfl

theorem start_recording_paused (rate maxCh : ℕ) (s : AudioState)
    (hp : s.is_paused = true) :
    start_recording (some (rate, maxCh)) s =
      (true, { s with sample_rate := rate, channels := min 2 (max 1 maxCh),
                      streamActive := true, is_recording := true, is_paused := false }) := by
  unfold start_recording
  rw [if_neg (by simp [hp])]
  dsimp only
  rw [if_neg (by simp [hp])]

theorem start_recording_fresh (rate maxCh : ℕ) (s : AudioState)
    (hr : s.is_recording = false) (hp : s.is_paused = false) :
    start_recording (some (rate, maxCh)) s =
      (true, { s with sample_rate := rate, channels := min 2 (max 1 maxCh),
                      frames := [], current_chunk_frames := [],
                      current_chunk_duration := 0,
                      streamActive := true, is_recording := true, is_paused := false }) := by
  unfold start_recording
  rw [if_neg (by simp [hr])]
  dsimp only
  rw [if_pos (by simp [hp])]

theorem pause_recording_live (s : AudioState)
    (hr : s.is_recording = true) (hp : s.is_paused = false) :
    pause_recording s = (true, { s with is_paused := true, streamActive := false }) := by
  unfold pause_recording
  rw [if_pos ⟨hr, by simp [hp]⟩]

theorem pause_recording_fail (s : AudioState)
    (h : s.is_recording = false ∨ s.is_paused = true) :
    pause_recording s = (false, s) := by
  unfold pause_recording
  rcases h with h | h <;> rw [if_neg (by simp [h])]

theorem resume_recording_live (s : AudioState)
    (hr : s.is_recording = true) (hp : s.is_paused = true) :
    resume_recording s = (true, { s with is_paused := false, streamActive := true }) := by
  unfold resume_recording
  rw [if_pos ⟨hr, hp⟩]

theorem resume_recording_fail (s : AudioState)
    (h : s.is_recording = false ∨ s.is_paused = false) :
    resume_recording s = (false, s) := by
  unfold resume_recording
  rcases h with h | h <;> rw [if_neg (by simp [h])]

theorem audioCallback_paused (D : ℚ) (s : AudioState) (b : List Sample)
    (hp : s.is_paused = true) : audioCallback D s b = s := by
  unfold audioCallback
  rw [if_pos hp]

theorem audioCallback_append (D : ℚ) (s : AudioState) (b : List Sample)
    (hp : s.is_paused = false)
    (hd : ¬ D ≤ s.current_chunk_duration + blockDuration s.channels s.sample_rate b) :
    audioCallback D s b =
      { s with frames := s.frames ++ [b]
               current_chunk_frames := s.current_chunk_frames ++ [b]
               current_chunk_duration :=
                 s.current_chunk_duration + blockDuration s.channels s.sample_rate b
               captured := s.captured ++ b } := by
  unfold audioCallback
  rw [if_neg (by simp [hp]), if_neg hd]

theorem audioCallback_flush (D : ℚ) (s : AudioState) (b : List Sample)
    (hp : s.is_paused = false)
    (hd : D ≤ s.current_chunk_duration + blockDuration s.channels s.sample_rate b) :
    audioCallback D s b =
      saveCurrentChunk
        { s with frames := s.frames ++ [b]
                 current_chunk_frames := s.current_chunk_frames ++ [b]
                 current_chunk_duration :=
                   s.current_chunk_duration + blockDuration s.channels s.sample_rate b
                 captured := s.captured ++ b } := by
  unfold audioCallback
  rw [if_neg (by simp [hp]), if_pos hd]

theorem stop_recording_idle (s : AudioState) (hr : s.is_recording = false) :
    stop_recording s = (false, s) := by
  unfold stop_recording
  rw [if_pos (by simp [hr])]

theorem stop_recording_live (s : AudioState) (hr : s.is_recording = true) :
    stop_recording s =
      (true, { saveCurrentChunk { s with streamActive := false } with
                 is_recording := false, is_paused := false }) := by
  unfold stop_recording
  rw [if_neg (by simp [hr])]
  dsimp only
  split
  · rfl
  · rename_i hcur
    unfold saveCurrentChunk
    rw [if_pos (by simpa using hcur)]

theorem ReconInv_step (D : ℚ) (s : AudioState) (e : AudioEvent) :
    ReconInv s → ReconInv (step D s e) := by
  rintro ⟨h1, h2, h3⟩
  cases e with
  | start dev =>
    simp only [step]
    cases hp : s.is_paused with
    | true =>
      match dev with
      | none =>
        rw [start_recording_none]
        exact ⟨h1, h2, h3⟩
      | some (rate, maxCh) =>
        rw [start_recording_paused rate maxCh s hp]
        exact ⟨h1, fun h => by simp at h, fun _ => rfl⟩
    | false =>
      cases hr : s.is_recording with
      | true =>
        rw [start_recording_busy dev s hr hp]
        exact ⟨h1, h2, h3⟩
      | false =>
        match dev with
        | none =>
          rw [start_recording_none]
          exact ⟨h1, h2, h3⟩
        | some (rate, maxCh) =>
          rw [start_recording_fresh rate maxCh s hr hp]
          have hcur := h2 hr
          refine ⟨?_, fun h => by simp at h, fun _ => rfl⟩
          simpa [hcur] using h1
  | block b =>
    simp only [step]
    split
    · rename_i hact
      have hrec := h3 hact
      cases hp : s.is_paused with
      | true => rw [audioCallback_paused D s b hp]; exact ⟨h1, h2, h3⟩
      | false =>
        by_cases hd : D ≤ s.current_chunk_duration + blockDuration s.channels s.sample_rate b
        · rw [audioCallback_flush D s b hp hd]
          refine ⟨?_, fun h => ?_, fun _ => by rw [saveCurrentChunk_is_recording]; exact hrec⟩
          · rw [saveCurrentChunk_flatten, saveCurrentChunk_captured]
            simp only [List.flatten_append, List.flatten_cons, List.flatten_nil,
              List.append_nil, ← List.append_assoc, h1]
          · rw [saveCurrentChunk_is_recording] at h
            simp only at h
            rw [hrec] at h
            cases h
        · rw [audioCallback_append D s b hp hd]
          refine ⟨?_, fun h => ?_, fun _ => hrec⟩
          · simp only [List.flatten_append, List.flatten_cons, List.flatten_nil,
              List.append_nil, ← List.append_assoc, h1]
          · simp only at h
            rw [hrec] at h
            cases h
    · exact ⟨h1, h2, h3⟩
  | pause =>
    simp only [step]
    cases hr : s.is_recording with
    | false =>
      rw [pause_recording_fail s (.inl hr)]
      exact ⟨h1, h2, h3⟩
    | true =>
      cases hp : s.is_paused with
      | true =>
        rw [pause_recording_fail s (.inr hp)]
        exact ⟨h1, h2, h3⟩
      | false =>
        rw [pause_recording_live s hr hp]
        exact ⟨h1, fun h => by simp [hr] at h, fun h => by simp at h⟩
  | resume =>
    simp only [step]
    cases hr : s.is_recording with
    | false =>
      rw [resume_recording_fail s (.inl hr)]
      exact ⟨h1, h2, h3⟩
    | true =>
      cases hp : s.is_paused with
      | false =>
        rw [resume_recording_fail s (.inr hp)]
        exact ⟨h1, h2, h3⟩
      | true =>
        rw [resume_recording_live s hr hp]
        exact ⟨h1, fun h => by simp [hr] at h, fun _ => hr⟩
  | stop =>
    simp only [step]
    cases hr : s.is_recording with
    | false =>
      rw [stop_recording_idle s hr]
      exact ⟨h1, h2, h3⟩
    | true =>
      rw [stop_recording_live s hr]
      have hfl := saveCurrentChunk_flatten { s with streamActive := false }
      have hcap := saveCurrentChunk_captured { s with streamActive := false }
      have hact := saveCurrentChunk_streamActive { s with streamActive := false }
      refine ⟨?_, fun _ => ?_, fun hx => ?_⟩
      · dsimp only
        rw [hfl, hcap]
        exact h1
      · dsimp only
        unfold saveCurrentChunk
        split
        · rename_i hcur
          simpa using hcur
        · rfl
      · dsimp only at hx
        rw [hact] at hx
        simp at hx
  | clear =>
    simp only [step, clear_recording]
    exact ⟨by simp, fun _ => rfl, fun h => by simp at h⟩

theorem ReconInv_run (D : ℚ) (tr : List AudioEvent) : ReconInv (run D tr) := by
  rw [run]
  induction tr using List.reverseRecOn with
  | nil => exact ReconInv_init
  | append_singleton tr e ih =>
    rw [List.foldl_append, List.foldl_cons, List.foldl_nil]
    exact ReconInv_step D _ e ih

/-! ### Claim theorems -/

theorem removeSilencesGen_eq (flagF : List α → Bool) (qual : ℕ → Bool) (k : ℕ)
    (rows : List α) :
    removeSilencesGen flagF qual k rows =
      if silentRegions qual ((chunksOf k rows).map flagF) = [] then none
      else some (removeRegions k rows.length
        (silentRegions qual ((chunksOf k rows).map flagF)) rows) := rfl

/-- C9: silence scrubbing is idempotent.  If `_remove_silences` (modelled
generically over the row type and the per-frame silence decision, covering
the mono and stereo instances alike) modifies a buffer, then running it
again on the output with the same threshold and minimum-duration parameters
finds no qualifying silent region and returns nothing.  The excised output
consists of whole analysis frames whose silence verdicts are unchanged, and
every surviving maximal silent run is a non-qualifying run of the input. -/
theorem c9_remove_silence_idempotent {α : Type} (flagF : List α → Bool)
    (qual : ℕ → Bool) (k : ℕ) (hk : 0 < k) (rows out : List α)
    (h : removeSilencesGen flagF qual k rows = some out) :
    removeSilencesGen flagF qual k out = none := by
  rw [removeSilencesGen_eq] at h
  by_cases hreg : silentRegions qual ((chunksOf k rows).map flagF) = []
  · rw [if_pos hreg] at h
    cases h
  · rw [if_neg hreg] at h
    injection h with hout
    subst hout
    have hrows : rows ≠ [] := by
      intro hnil
      subst hnil
      rw [chunksOf_nil] at hreg
      simp only [List.map_nil] at hreg
      exact hreg rfl
    have hk0 : k ≠ 0 := by omega
    have hsh : shapeK k (chunksOf k rows) :=
      shapeK_chunksOf k hk rows.length rows (le_refl _) hrows
    have hflat : (chunksOf k rows).flatten = rows :=
      flatten_chunksOf k hk0 rows.length rows (le_refl _)
    have hA1 : silentRegions qual ((chunksOf k rows).map flagF)
        = runRegions qual 0 ((chunksOf k rows).map flagF) :=
      regionsFrom_eq_runRegions qual _ _ 0 (le_refl _)
    have hG := go_runRegions_scrubChunks hk qual (chunksOf k rows) hsh
      ((chunksOf k rows).map flagF).length ((chunksOf k rows).map flagF)
      (chunksOf k rows) 0 (le_refl _) (by simp) (by simp)
    have hmin : min (0 * k) (chunksOf k rows).flatten.length = 0 := by simp
    rw [hmin, hflat] at hG
    have hout2 : removeRegions k rows.length
        (silentRegions qual ((chunksOf k rows).map flagF)) rows
        = (scrubChunks qual ((chunksOf k rows).map flagF) (chunksOf k rows)).flatten := by
      rw [removeRegions, hA1]
      exact hG
    rw [hout2]
    rcases hSC : scrubChunks qual ((chunksOf k rows).map flagF) (chunksOf k rows)
      with _ | ⟨c, SC⟩
    · rw [List.flatten_nil, removeSilencesGen_eq, chunksOf_nil]
      rw [if_pos (by simp [silentRegions, regionsFrom])]
    · have hsub := scrubChunks_sublist qual ((chunksOf k rows).map flagF).length
        ((chunksOf k rows).map flagF) (chunksOf k rows) (le_refl _)
      rw [hSC] at hsub
      have hshSC : shapeK k (c :: SC) := shapeK_of_sublist hk hsub hsh
      have hchunks : chunksOf k ((c :: SC).flatten) = c :: SC :=
        chunksOf_flatten_of_shapeK hk _ hshSC
      have hmap : (c :: SC).map flagF
          = scrubFlags qual ((chunksOf k rows).map flagF) := by
        rw [← hSC]
        exact map_scrubChunks qual flagF ((chunksOf k rows).map flagF).length _ _
          (le_refl _) rfl
      rw [removeSilencesGen_eq, hchunks, hmap]
      have hempty : silentRegions qual
          (scrubFlags qual ((chunksOf k rows).map flagF)) = [] := by
        rw [silentRegions, regionsFrom_eq_runRegions qual
          (scrubFlags qual ((chunksOf k rows).map flagF)).length _ 0 (le_refl _)]
        exact runRegions_scrubFlags qual ((chunksOf k rows).map flagF).length _ 0
          (le_refl _)
      rw [if_pos hempty]

theorem frameSilent_zero_frame :
    frameSilent (-40) [(0 : Sample)] = true := by
  unfold frameSilent
  rw [if_pos (by norm_num [frameRmsSq])]
  rfl

theorem frameSilent_full_frame :
    frameSilent (-40) [(32767 : Sample)] = false := by
  unfold frameSilent
  rw [if_neg (by norm_num [frameRmsSq])]
  rw [decide_eq_false_iff_not]
  norm_num [frameRmsSq, fullScale]

theorem qualDur_fifth_two : qualDur ((5 : ℚ)⁻¹) 2 = true := by
  unfold qualDur
  rw [decide_eq_true_eq]
  norm_num

/-- Witness for C9: a concrete first pass that excises a qualifying silent
region, followed by the second pass returning nothing. -/
theorem c9_remove_silence_idempotent_witness :
    removeSilencesGen (frameSilent (-40)) (qualDur (1 / 5)) 1
        [(32767 : Sample), 0, 0, 32767] = some [32767, 32767] ∧
      removeSilencesGen (frameSilent (-40)) (qualDur (1 / 5)) 1
        [(32767 : Sample), 32767] = none := by
  have hch : chunksOf 1 [(32767 : Sample), 0, 0, 32767]
      = [[32767], [0], [0], [32767]] := rfl
  have hflags : ([[32767], [0], [0], [(32767 : Sample)]]).map (frameSilent (-40))
      = [false, true, true, false] := by
    simp only [List.map_cons, List.map_nil, frameSilent_zero_frame,
      frameSilent_full_frame]
  have hreg : silentRegions (qualDur (1 / 5)) [false, true, true, false]
      = [(1, 3)] := by
    simp [silentRegions, regionsFrom, qualDur_fifth_two]
  have h1 : removeSilencesGen (frameSilent (-40)) (qualDur (1 / 5)) 1
      [(32767 : Sample), 0, 0, 32767] = some [32767, 32767] := by
    rw [removeSilencesGen_eq, hch, hflags, hreg, if_neg (by simp)]
    rfl
  exact ⟨h1, c9_remove_silence_idempotent _ _ 1 (by norm_num) _ _ h1⟩

/-- C1: for every recording session and any event trace, the concatenation
of the flushed chunk files (in order) followed by the still-unflushed
in-memory frames is exactly the sample sequence delivered to the capture
callback while recording and not paused since the last clear (the ghost
`captured` history); and a block arriving while paused changes nothing at
all (a gap, not silence padding), for any number of pause/resume cycles. -/
theorem c1_lossless_reconstruction (D : ℚ) (tr : List AudioEvent) :
    (((run D tr).temp_files.map TempFile.data).flatten ++
        (run D tr).current_chunk_frames.flatten = (run D tr).captured)
    ∧ ∀ (s : AudioState) (b : List Sample), s.is_paused = true →
        audioCallback D s b = s :=
  ⟨(ReconInv_run D tr).1, fun s b hp => audioCallback_paused D s b hp⟩

/-- Witness for C1 at a concrete trace and a concrete paused state. -/
theorem c1_lossless_reconstruction_witness :
    (((run 1 [.clear]).temp_files.map TempFile.data).flatten ++
        (run 1 [.clear]).current_chunk_frames.flatten = (run 1 [.clear]).captured)
    ∧ audioCallback 1 { initState with is_paused := true } [5]
        = { initState with is_paused := true } :=
  ⟨(c1_lossless_reconstruction 1 [.clear]).1,
   (c1_lossless_reconstruction 1 [.clear]).2 _ [5] rfl⟩

/-- C8: invalid state-machine transitions are rejected without changing
state: `pause_recording` outside a live recording (Idle or Stopped, i.e.
`is_recording = false`) returns `False` and leaves the state untouched, and
`resume_recording` during active (unpaused) recording returns `False` and
leaves the state untouched. -/
theorem c8_invalid_transitions_rejected (s : AudioState) :
    (s.is_recording = false → pause_recording s = (false, s))
    ∧ (s.is_recording = true → s.is_paused = false → resume_recording s = (false, s)) :=
  ⟨fun hr => pause_recording_fail s (.inl hr),
   fun _ hp => resume_recording_fail s (.inr hp)⟩

/-- Witness for C8: the fresh manager rejects `pause`, and an actively
recording manager rejects `resume`. -/
theorem c8_invalid_transitions_rejected_witness :
    pause_recording initState = (false, initState)
    ∧ resume_recording { initState with is_recording := true }
        = (false, { initState with is_recording := true }) :=
  ⟨(c8_invalid_transitions_rejected initState).1 rfl,
   (c8_invalid_transitions_rejected { initState with is_recording := true }).2 rfl rfl⟩

/-- C10: `start_recording` on a live session never discards captured audio.
While actively recording it returns `False` and leaves the whole state
unchanged; while paused it resumes into the same session, preserving the
full-history frames, the current chunk buffer, its accumulated duration and
the chunk file list. -/
theorem c10_start_preserves_audio (dev : Option (ℕ × ℕ)) (rate maxCh : ℕ)
    (s : AudioState) :
    (s.is_recording = true → s.is_paused = false → start_recording dev s = (false, s))
    ∧ (s.is_paused = true →
        (start_recording (some (rate, maxCh)) s).1 = true
        ∧ (start_recording (some (rate, maxCh)) s).2.frames = s.frames
        ∧ (start_recording (some (rate, maxCh)) s).2.current_chunk_frames
            = s.current_chunk_frames
        ∧ (start_recording (some (rate, maxCh)) s).2.current_chunk_duration
            = s.current_chunk_duration
        ∧ (start_recording (some (rate, maxCh)) s).2.temp_files = s.temp_files
        ∧ (start_recording (some (rate, maxCh)) s).2.is_recording = true
        ∧ (start_recording (some (rate, maxCh)) s).2.is_paused = false
        ∧ (start_recording (some (rate, maxCh)) s).2.streamActive = true) := by
  refine ⟨fun hr hp => start_recording_busy dev s hr hp, fun hp => ?_⟩
  rw [start_recording_paused rate maxCh s hp]
  exact ⟨rfl, rfl, rfl, rfl, rfl, rfl, rfl, rfl⟩

/-- Witness for C10 at a recording state and at a paused state. -/
theorem c10_start_preserves_audio_witness :
    start_recording (some (16000, 1)) { initState with is_recording := true }
        = (false, { initState with is_recording := true })
    ∧ (start_recording (some (16000, 1))
        { initState with is_recording := true, is_paused := true, frames := [[3]], current_chunk_frames := [[3]] }).2.frames
        = [[3]] := by
  refine ⟨(c10_start_preserves_audio (some (16000, 1)) 16000 1 _).1 rfl rfl, ?_⟩
  exact ((c10_start_preserves_audio (some (16000, 1)) 16000 1 _).2 rfl).2.1

/-- C2 (code divergence): a failing chunk write inside `_audio_callback` is
not swallowed: the exception propagates out of the callback (first
component `true` = raised), although the frames accumulated so far do stay
in the buffers.  At the concrete failing input below, the accumulated
duration `3/5 + 3/5` reaches the limit `1`, the flush is attempted with a
failing write, and the callback raises. -/
theorem c2_callback_flush_failure_raises :
    (audioCallbackE 1 false
        { is_recording := true, is_paused := false, frames := [[1]],
          temp_files := [], current_chunk_frames := [[1]],
          current_chunk_duration := 3 / 5, sample_rate := 10, channels := 1,
          streamActive := true, disk := [], nextId := 0, captured := [1] }
        [2, 2, 2, 2, 2, 2]
      = (true,
        { is_recording := true, is_paused := false,
          frames := [[1], [2, 2, 2, 2, 2, 2]], temp_files := [],
          current_chunk_frames := [[1], [2, 2, 2, 2, 2, 2]],
          current_chunk_duration := 3 / 5 + blockDuration 1 10 [2, 2, 2, 2, 2, 2],
          sample_rate := 10, channels := 1, streamActive := true,
          disk := [], nextId := 0, captured := [1, 2, 2, 2, 2, 2, 2] }))
    ∧ blockDuration 1 10 [2, 2, 2, 2, 2, 2] = 3 / 5 := by
  constructor
  · unfold audioCallbackE
    rw [if_neg (by simp)]
    dsimp only
    rw [if_pos ?cond]
    case cond =>
      simp only [blockDuration, List.length_cons, List.length_nil]
      norm_num
    rfl
  · simp only [blockDuration, List.length_cons, List.length_nil]
    norm_num

/-- C7: `clear_recording` from any state empties the chunk file list, both
in-memory buffers and the accumulated duration, deletes every
previously-referenced chunk file from disk, and a subsequent assembly
attempt fails with the no-recording result (`none`) rather than silently
producing an empty file. -/
theorem c7_clear_destructive (s : AudioState) :
    (clear_recording s).2.temp_files = []
    ∧ (clear_recording s).2.frames = []
    ∧ (clear_recording s).2.current_chunk_frames = []
    ∧ (clear_recording s).2.current_chunk_duration = 0
    ∧ (∀ f ∈ s.temp_files, ¬ f.id ∈ (clear_recording s).2.disk)
    ∧ ∀ (scrub : Bool) (T : ℤ) (minDur : ℚ) (useMp3 mp3Ok : Bool),
        (save_to_temp_file scrub T minDur useMp3 mp3Ok (clear_recording s).2).1 = none := by
  refine ⟨rfl, rfl, rfl, rfl, fun f hf hmem => ?_, fun scrub T minDur useMp3 mp3Ok => ?_⟩
  · simp only [clear_recording, List.mem_filter] at hmem
    exact absurd (List.mem_map_of_mem TempFile.id hf) (by simpa using hmem.2)
  · unfold save_to_temp_file
    rw [if_pos ⟨rfl, rfl⟩]

/-- Witness for C7 on a state holding one chunk file on disk. -/
theorem c7_clear_destructive_witness :
    (clear_recording { initState with temp_files := [⟨7, 1, 2, 10, [4]⟩], disk := [7], frames := [[4]] }).2.temp_files = []
    ∧ ¬ (7 : ℕ) ∈ (clear_recording { initState with temp_files := [⟨7, 1, 2, 10, [4]⟩], disk := [7], frames := [[4]] }).2.disk
    ∧ (save_to_temp_file false 0 0 false false
        (clear_recording { initState with temp_files := [⟨7, 1, 2, 10, [4]⟩], disk := [7], frames := [[4]] }).2).1 = none :=
  ⟨(c7_clear_destructive _).1,
   (c7_clear_destructive _).2.2.2.2.1 ⟨7, 1, 2, 10, [4]⟩ (by simp),
   (c7_clear_destructive _).2.2.2.2.2 false 0 0 false false⟩

/-- C4: assembling without scrubbing concatenates the chunk files in
chronological (insertion) order, never reordering, and the combined file
carries the first chunk's format parameters. -/
theorem c4_assembly_order (T : ℤ) (minDur : ℚ) (mp3Ok : Bool) (s : AudioState)
    (fA fB fC : TempFile) (h3 : s.temp_files = [fA, fB, fC])
    (hcur : s.current_chunk_frames = []) :
    (save_to_temp_file false T minDur false mp3Ok s).1
      = some ⟨s.nextId, fA.channels, fA.sampwidth, fA.framerate,
          fA.data ++ (fB.data ++ (fC.data ++ []))⟩ := by
  unfold save_to_temp_file
  rw [if_neg (by simp [h3]), if_pos (by simp [h3])]
  have hs1 : (if s.current_chunk_frames ≠ [] then saveCurrentChunk s else s) = s :=
    if_neg (by simp [hcur])
  dsimp only
  rw [hs1, h3]
  rfl

/-- Witness for C4 on three concrete chunk files. -/
theorem c4_assembly_order_witness :
    (save_to_temp_file false 0 0 false false
        { initState with temp_files := [⟨0, 1, 2, 10, [1, 2]⟩, ⟨1, 1, 2, 10, [3]⟩, ⟨2, 1, 2, 10, [4, 5]⟩] }).1
      = some ⟨0, 1, 2, 10, [1, 2] ++ ([3] ++ ([4, 5] ++ []))⟩ :=
  c4_assembly_order 0 0 false
    { initState with temp_files := [⟨0, 1, 2, 10, [1, 2]⟩, ⟨1, 1, 2, 10, [3]⟩, ⟨2, 1, 2, 10, [4, 5]⟩] }
    ⟨0, 1, 2, 10, [1, 2]⟩ ⟨1, 1, 2, 10, [3]⟩ ⟨2, 1, 2, 10, [4, 5]⟩ rfl rfl


theorem saveCurrentChunk_duration (s : AudioState) :
    (saveCurrentChunk s).current_chunk_duration = s.current_chunk_duration
    ∨ (saveCurrentChunk s).current_chunk_duration = 0 := by
  unfold saveCurrentChunk
  split
  · exact .inl rfl
  · exact .inr rfl

/-- The accumulated current-chunk duration always stays below the limit:
any block that lifts it to the limit triggers an immediate flush resetting
it to zero. -/
theorem duration_lt_step (D : ℚ) (hD : 0 < D) (s : AudioState) (e : AudioEvent)
    (h : s.current_chunk_duration < D) :
    (step D s e).current_chunk_duration < D := by
  cases e with
  | start dev =>
    simp only [step]
    cases hp : s.is_paused with
    | true =>
      match dev with
      | none => rw [start_recording_none]; exact h
      | some (rate, maxCh) => rw [start_recording_paused rate maxCh s hp]; exact h
    | false =>
      cases hr : s.is_recording with
      | true => rw [start_recording_busy dev s hr hp]; exact h
      | false =>
        match dev with
        | none => rw [start_recording_none]; exact h
        | some (rate, maxCh) => rw [start_recording_fresh rate maxCh s hr hp]; exact hD
  | block b =>
    simp only [step]
    split
    · cases hp : s.is_paused with
      | true => rw [audioCallback_paused D s b hp]; exact h
      | false =>
        by_cases hd : D ≤ s.current_chunk_duration + blockDuration s.channels s.sample_rate b
        · rw [audioCallback_flush D s b hp hd]
          unfold saveCurrentChunk
          rw [if_neg (by simp)]
          exact hD
        · rw [audioCallback_append D s b hp hd]
          simpa using not_le.mp hd
    · exact h
  | pause =>
    simp only [step]
    cases hr : s.is_recording with
    | false => rw [pause_recording_fail s (.inl hr)]; exact h
    | true =>
      cases hp : s.is_paused with
      | true => rw [pause_recording_fail s (.inr hp)]; exact h
      | false => rw [pause_recording_live s hr hp]; exact h
  | resume =>
    simp only [step]
    cases hr : s.is_recording with
    | false => rw [resume_recording_fail s (.inl hr)]; exact h
    | true =>
      cases hp : s.is_paused with
      | false => rw [resume_recording_fail s (.inr hp)]; exact h
      | true => rw [resume_recording_live s hr hp]; exact h
  | stop =>
    simp only [step]
    cases hr : s.is_recording with
    | false => rw [stop_recording_idle s hr]; exact h
    | true =>
      rw [stop_recording_live s hr]
      rcases saveCurrentChunk_duration { s with streamActive := false } with hc | hc
        <;> simp only at hc ⊢ <;> rw [hc]
      · exact h
      · exact hD
  | clear =>
    simp only [step, clear_recording]
    exact hD

theorem duration_lt_run (D : ℚ) (hD : 0 < D) (tr : List AudioEvent) :
    (run D tr).current_chunk_duration < D := by
  rw [run]
  induction tr using List.reverseRecOn with
  | nil => exact hD
  | append_singleton tr e ih =>
    rw [List.foldl_append, List.foldl_cons, List.foldl_nil]
    exact duration_lt_step D hD _ e ih

/-- C5 (amended): the capture callback flushes the accumulated in-memory
frames into a chunk file exactly when the accumulated duration reaches or
exceeds `D`, then resets the accumulator to empty/zero; in that case the
flushed chunk's accounted duration lies in `[D, D + one block's duration)`
rather than in `(0, D]`.  When the accumulated duration stays below `D` the
block is only appended. -/
theorem c5_chunk_flush_amended (D : ℚ) (hD : 0 < D) (tr : List AudioEvent)
    (s : AudioState) (hs : s = run D tr) (b : List Sample)
    (hp : s.is_paused = false) :
    (D ≤ s.current_chunk_duration + blockDuration s.channels s.sample_rate b →
      audioCallback D s b =
        { s with frames := s.frames ++ [b],
                 temp_files := s.temp_files ++
                   [⟨s.nextId, s.channels, 2, s.sample_rate,
                     (s.current_chunk_frames ++ [b]).flatten⟩],
                 disk := s.disk ++ [s.nextId], nextId := s.nextId + 1,
                 current_chunk_frames := [], current_chunk_duration := 0,
                 captured := s.captured ++ b }
      ∧ s.current_chunk_duration + blockDuration s.channels s.sample_rate b
          < D + blockDuration s.channels s.sample_rate b)
    ∧ (¬ D ≤ s.current_chunk_duration + blockDuration s.channels s.sample_rate b →
      audioCallback D s b =
        { s with frames := s.frames ++ [b],
                 current_chunk_frames := s.current_chunk_frames ++ [b],
                 current_chunk_duration :=
                   s.current_chunk_duration + blockDuration s.channels s.sample_rate b,
                 captured := s.captured ++ b }) := by
  constructor
  · intro hd
    constructor
    · rw [audioCallback_flush D s b hp hd]
      unfold saveCurrentChunk
      rw [if_neg (by simp)]
    · have hlt : s.current_chunk_duration < D := by
        rw [hs]
        exact duration_lt_run D hD tr
      linarith
  · intro hd
    exact audioCallback_append D s b hp hd

/-- Witness for C5 on a concrete trace whose next block lifts the
accumulated duration `3/5` past the limit `1`. -/
theorem c5_chunk_flush_amended_witness :
    (run 1 [.start (some (10, 1)), .block [0, 0, 0, 0, 0, 0]]).is_paused = false
    ∧ (1 : ℚ) ≤ (run 1 [.start (some (10, 1)), .block [0, 0, 0, 0, 0, 0]]).current_chunk_duration
        + blockDuration (run 1 [.start (some (10, 1)), .block [0, 0, 0, 0, 0, 0]]).channels
            (run 1 [.start (some (10, 1)), .block [0, 0, 0, 0, 0, 0]]).sample_rate
            [0, 0, 0, 0, 0, 0]
    ∧ (run 1 [.start (some (10, 1)), .block [0, 0, 0, 0, 0, 0]]).current_chunk_duration
        + blockDuration (run 1 [.start (some (10, 1)), .block [0, 0, 0, 0, 0, 0]]).channels
            (run 1 [.start (some (10, 1)), .block [0, 0, 0, 0, 0, 0]]).sample_rate
            [0, 0, 0, 0, 0, 0]
      < 1 + blockDuration (run 1 [.start (some (10, 1)), .block [0, 0, 0, 0, 0, 0]]).channels
            (run 1 [.start (some (10, 1)), .block [0, 0, 0, 0, 0, 0]]).sample_rate
            [0, 0, 0, 0, 0, 0] := by
  have hstep1 : step 1 initState (.start (some (10, 1))) =
      { is_recording := true, is_paused := false, frames := [], temp_files := [],
        current_chunk_frames := [], current_chunk_duration := 0, sample_rate := 10,
        channels := 1, streamActive := true, disk := [], nextId := 0, captured := [] } := by
    simp only [step]
    rw [start_recording_fresh 10 1 initState rfl rfl]
    exact rfl
  have hcond : ¬ (1 : ℚ) ≤
      (0 : ℚ) + blockDuration 1 10 [0, 0, 0, 0, 0, 0] := by
    simp only [blockDuration, List.length_cons, List.length_nil]
    norm_num
  have hstep2 : step 1
      { is_recording := true, is_paused := false, frames := [], temp_files := [],
        current_chunk_frames := [], current_chunk_duration := 0, sample_rate := 10,
        channels := 1, streamActive := true, disk := [], nextId := 0, captured := [] }
      (.block [0, 0, 0, 0, 0, 0]) =
      { is_recording := true, is_paused := false, frames := [[0, 0, 0, 0, 0, 0]],
        temp_files := [], current_chunk_frames := [[0, 0, 0, 0, 0, 0]],
        current_chunk_duration := 0 + blockDuration 1 10 [0, 0, 0, 0, 0, 0],
        sample_rate := 10, channels := 1, streamActive := true, disk := [],
        nextId := 0, captured := [0, 0, 0, 0, 0, 0] } := by
    simp only [step]
    rw [if_pos trivial, audioCallback_append 1 _ [0, 0, 0, 0, 0, 0] rfl hcond]
    exact rfl
  have hrun : run 1 [.start (some (10, 1)), .block [0, 0, 0, 0, 0, 0]] =
      { is_recording := true, is_paused := false, frames := [[0, 0, 0, 0, 0, 0]],
        temp_files := [], current_chunk_frames := [[0, 0, 0, 0, 0, 0]],
        current_chunk_duration := 0 + blockDuration 1 10 [0, 0, 0, 0, 0, 0],
        sample_rate := 10, channels := 1, streamActive := true, disk := [],
        nextId := 0, captured := [0, 0, 0, 0, 0, 0] } := by
    rw [run, List.foldl_cons, List.foldl_cons, List.foldl_nil, hstep1, hstep2]
  have hp : (run 1 [.start (some (10, 1)), .block [0, 0, 0, 0, 0, 0]]).is_paused = false := by
    rw [hrun]
  have hd : (1 : ℚ) ≤ (run 1 [.start (some (10, 1)), .block [0, 0, 0, 0, 0, 0]]).current_chunk_duration
      + blockDuration (run 1 [.start (some (10, 1)), .block [0, 0, 0, 0, 0, 0]]).channels
          (run 1 [.start (some (10, 1)), .block [0, 0, 0, 0, 0, 0]]).sample_rate
          [0, 0, 0, 0, 0, 0] := by
    rw [hrun]
    show (1 : ℚ) ≤ (0 + blockDuration 1 10 [0, 0, 0, 0, 0, 0])
        + blockDuration 1 10 [0, 0, 0, 0, 0, 0]
    simp only [blockDuration, List.length_cons, List.length_nil]
    norm_num
  exact ⟨hp, hd,
    ((c5_chunk_flush_amended 1 (by norm_num)
      [.start (some (10, 1)), .block [0, 0, 0, 0, 0, 0]]
      (run 1 [.start (some (10, 1)), .block [0, 0, 0, 0, 0, 0]]) rfl
      [0, 0, 0, 0, 0, 0] hp).1 hd).2⟩

/-- Counterexample to C5 as stated: with `D = 1` second, device rate 10 Hz
mono and 12-sample (1.2 s) callback blocks, the first (non-final) chunk
file has duration `6/5 > D`, outside `(0, D]`. -/
theorem c5_chunk_bound_counterexample :
    ¬ claimC5Holds 1 [.start (some (10, 1)), .block (List.replicate 12 0),
        .block (List.replicate 12 0), .stop] := by
  have hstepA : step 1 initState (.start (some (10, 1))) =
      { is_recording := true, is_paused := false, frames := [], temp_files := [],
        current_chunk_frames := [], current_chunk_duration := 0, sample_rate := 10,
        channels := 1, streamActive := true, disk := [], nextId := 0, captured := [] } := by
    simp only [step]
    rw [start_recording_fresh 10 1 initState rfl rfl]
    exact rfl
  have hcondB : (1 : ℚ) ≤ (0 : ℚ) + blockDuration 1 10 (List.replicate 12 0) := by
    simp only [blockDuration, List.length_replicate]
    norm_num
  have hstepB : step 1
      { is_recording := true, is_paused := false, frames := [], temp_files := [],
        current_chunk_frames := [], current_chunk_duration := 0, sample_rate := 10,
        channels := 1, streamActive := true, disk := [], nextId := 0, captured := [] }
      (.block (List.replicate 12 0)) =
      { is_recording := true, is_paused := false, frames := [List.replicate 12 0],
        temp_files := [⟨0, 1, 2, 10, List.replicate 12 0⟩],
        current_chunk_frames := [], current_chunk_duration := 0, sample_rate := 10,
        channels := 1, streamActive := true, disk := [0], nextId := 1,
        captured := List.replicate 12 0 } := by
    simp only [step]
    rw [if_pos trivial, audioCallback_flush 1
      { is_recording := true, is_paused := false, frames := [], temp_files := [],
        current_chunk_frames := [], current_chunk_duration := 0, sample_rate := 10,
        channels := 1, streamActive := true, disk := [], nextId := 0, captured := [] }
      (List.replicate 12 0) rfl hcondB]
    unfold saveCurrentChunk
    rw [if_neg (by simp)]
    simp
  have hcondC : (1 : ℚ) ≤ (0 : ℚ) + blockDuration 1 10 (List.replicate 12 0) := hcondB
  have hstepC : step 1
      { is_recording := true, is_paused := false, frames := [List.replicate 12 0],
        temp_files := [⟨0, 1, 2, 10, List.replicate 12 0⟩],
        current_chunk_frames := [], current_chunk_duration := 0, sample_rate := 10,
        channels := 1, streamActive := true, disk := [0], nextId := 1,
        captured := List.replicate 12 0 }
      (.block (List.replicate 12 0)) =
      { is_recording := true, is_paused := false,
        frames := [List.replicate 12 0, List.replicate 12 0],
        temp_files := [⟨0, 1, 2, 10, List.replicate 12 0⟩,
          ⟨1, 1, 2, 10, List.replicate 12 0⟩],
        current_chunk_frames := [], current_chunk_duration := 0, sample_rate := 10,
        channels := 1, streamActive := true, disk := [0, 1], nextId := 2,
        captured := List.replicate 12 0 ++ List.replicate 12 0 } := by
    simp only [step]
    rw [if_pos trivial, audioCallback_flush 1
      { is_recording := true, is_paused := false, frames := [List.replicate 12 0],
        temp_files := [⟨0, 1, 2, 10, List.replicate 12 0⟩],
        current_chunk_frames := [], current_chunk_duration := 0, sample_rate := 10,
        channels := 1, streamActive := true, disk := [0], nextId := 1,
        captured := List.replicate 12 0 }
      (List.replicate 12 0) rfl hcondC]
    unfold saveCurrentChunk
    rw [if_neg (by simp)]
    simp
  have hstepD : step 1
      { is_recording := true, is_paused := false,
        frames := [List.replicate 12 0, List.replicate 12 0],
        temp_files := [⟨0, 1, 2, 10, List.replicate 12 0⟩,
          ⟨1, 1, 2, 10, List.replicate 12 0⟩],
        current_chunk_frames := [], current_chunk_duration := 0, sample_rate := 10,
        channels := 1, streamActive := true, disk := [0, 1], nextId := 2,
        captured := List.replicate 12 0 ++ List.replicate 12 0 }
      .stop =
      { is_recording := false, is_paused := false,
        frames := [List.replicate 12 0, List.replicate 12 0],
        temp_files := [⟨0, 1, 2, 10, List.replicate 12 0⟩,
          ⟨1, 1, 2, 10, List.replicate 12 0⟩],
        current_chunk_frames := [], current_chunk_duration := 0, sample_rate := 10,
        channels := 1, streamActive := false, disk := [0, 1], nextId := 2,
        captured := List.replicate 12 0 ++ List.replicate 12 0 } := by
    simp only [step]
    rw [stop_recording_live _ rfl]
    unfold saveCurrentChunk
    rw [if_pos rfl]
  have hrun : run 1 [.start (some (10, 1)), .block (List.replicate 12 0),
      .block (List.replicate 12 0), .stop] =
      { is_recording := false, is_paused := false,
        frames := [List.replicate 12 0, List.replicate 12 0],
        temp_files := [⟨0, 1, 2, 10, List.replicate 12 0⟩,
          ⟨1, 1, 2, 10, List.replicate 12 0⟩],
        current_chunk_frames := [], current_chunk_duration := 0, sample_rate := 10,
        channels := 1, streamActive := false, disk := [0, 1], nextId := 2,
        captured := List.replicate 12 0 ++ List.replicate 12 0 } := by
    rw [run, List.foldl_cons, List.foldl_cons, List.foldl_cons, List.foldl_cons,
      List.foldl_nil, hstepA, hstepB, hstepC, hstepD]
  intro hcl
  have hmem : (⟨0, 1, 2, 10, List.replicate 12 0⟩ : TempFile) ∈
      (run 1 [.start (some (10, 1)), .block (List.replicate 12 0),
        .block (List.replicate 12 0), .stop]).temp_files.dropLast := by
    rw [hrun]
    decide
  have h1 := hcl _ hmem
  have h2 := h1.2
  simp only [chunkFileDuration, List.length_replicate] at h2
  norm_num at h2

theorem get_devicesE_go_ok (infos : List DeviceInfo) :
    ∀ (i : ℕ) (acc : List Device),
      get_devicesE.go i (infos.map Except.ok) acc =
        .ok (acc ++ ((List.enumFrom i infos).filter
          (fun p => 0 < p.2.maxInputChannels)).map (fun p => mkDevice p.1 p.2)) := by
  induction infos with
  | nil => intro i acc; simp [get_devicesE.go]
  | cons d rest ih =>
    intro i acc
    simp only [List.map_cons, get_devicesE.go, List.enumFrom_cons, List.filter_cons]
    by_cases hd : 0 < d.maxInputChannels
    · rw [if_pos hd, ih]
      simp [hd]
    · rw [if_neg hd, ih]
      simp [hd]

/-- Counterexample to C6 as stated: a raising device query propagates out of
`get_devices` instead of yielding an empty device list. -/
theorem c6_get_devices_counterexample :
    get_devicesE [Except.error ()] = Except.error ()
    ∧ get_devicesE [Except.error ()] ≠ Except.ok [] := by
  exact ⟨rfl, by simp [get_devicesE, get_devicesE.go]⟩

/-- C6 (amended): when every per-index device query succeeds, `get_devices`
returns exactly the devices with `maxInputChannels > 0`, each mapped to its
index, name, channel count and truncated default sample rate, in index
order.  An enumeration failure, however, propagates as an exception rather
than producing an empty sequence. -/
theorem c6_get_devices_amended (infos : List DeviceInfo) :
    get_devicesE (infos.map Except.ok) =
      .ok (((List.enumFrom 0 infos).filter
        (fun p => 0 < p.2.maxInputChannels)).map (fun p => mkDevice p.1 p.2))
    ∧ ∀ (pre : List (Except Unit DeviceInfo)) (post : List (Except Unit DeviceInfo)),
        (∀ x ∈ pre, ∃ d, x = Except.ok d) →
        ∃ e, get_devicesE (pre ++ Except.error () :: post) = Except.error e := by
  constructor
  · rw [get_devicesE, get_devicesE_go_ok infos 0 []]
    simp
  · intro pre post hpre
    rw [get_devicesE]
    suffices h : ∀ (pre : List (Except Unit DeviceInfo)) (i : ℕ) (acc : List Device),
        (∀ x ∈ pre, ∃ d, x = Except.ok d) →
        ∃ e, get_devicesE.go i (pre ++ Except.error () :: post) acc = Except.error e by
      exact h pre 0 [] hpre
    intro pre
    induction pre with
    | nil => intro i acc _; exact ⟨(), rfl⟩
    | cons x rest ih =>
      intro i acc hx
      obtain ⟨d, hd⟩ := hx x (by simp)
      subst hd
      simp only [List.cons_append, get_devicesE.go]
      exact ih (i + 1) _ (fun y hy => hx y (by simp [hy]))

/-- Witness for the amended C6 on a concrete host with one usable input
device, one output-only device, and one raising index. -/
theorem c6_get_devices_amended_witness :
    get_devicesE ([(⟨5, 2, 44100⟩ : DeviceInfo), ⟨6, 0, 22050⟩].map Except.ok)
      = .ok (((List.enumFrom 0 [(⟨5, 2, 44100⟩ : DeviceInfo), ⟨6, 0, 22050⟩]).filter
          (fun p => 0 < p.2.maxInputChannels)).map (fun p => mkDevice p.1 p.2))
    ∧ ∃ e, get_devicesE ([Except.ok (⟨5, 2, 44100⟩ : DeviceInfo)] ++ Except.error () :: [])
        = Except.error e :=
  ⟨(c6_get_devices_amended [⟨5, 2, 44100⟩, ⟨6, 0, 22050⟩]).1,
   (c6_get_devices_amended []).2 [Except.ok ⟨5, 2, 44100⟩] []
     (fun x hx => ⟨⟨5, 2, 44100⟩, by rw [List.mem_singleton] at hx; exact hx⟩)⟩

/-- The executable silence decision agrees with the source's dB formula
`20*log10(rms/32767) <= threshold` (for a frame with positive energy),
where `rms` is the square root of the mean square. -/
theorem frameSilent_iff_db (T : ℤ) (f : List Sample) (hq : 0 < frameRmsSq f) :
    frameSilent T f = true ↔
      20 * Real.logb 10 (Real.sqrt ((frameRmsSq f : ℚ) : ℝ) / 32767) ≤ (T : ℝ) := by
  have hq0 : ¬ frameRmsSq f = 0 := by positivity
  have hqR : (0 : ℝ) < ((frameRmsSq f : ℚ) : ℝ) := by exact_mod_cast hq
  have hx : (0 : ℝ) < Real.sqrt ((frameRmsSq f : ℚ) : ℝ) / 32767 :=
    div_pos (Real.sqrt_pos.mpr hqR) (by norm_num)
  unfold frameSilent
  rw [if_neg hq0, decide_eq_true_eq]
  have h1 : (20 * Real.logb 10 (Real.sqrt ((frameRmsSq f : ℚ) : ℝ) / 32767) ≤ (T : ℝ))
      ↔ Real.logb 10 (Real.sqrt ((frameRmsSq f : ℚ) : ℝ) / 32767) ≤ (T : ℝ) / 20 := by
    rw [mul_comm]
    exact (le_div_iff (by norm_num)).symm
  have h2 : Real.logb 10 (Real.sqrt ((frameRmsSq f : ℚ) : ℝ) / 32767) ≤ (T : ℝ) / 20
      ↔ Real.sqrt ((frameRmsSq f : ℚ) : ℝ) / 32767 ≤ (10 : ℝ) ^ ((T : ℝ) / 20) :=
    Real.logb_le_iff_le_rpow (by norm_num) hx
  have h3 : Real.sqrt ((frameRmsSq f : ℚ) : ℝ) / 32767 ≤ (10 : ℝ) ^ ((T : ℝ) / 20)
      ↔ (Real.sqrt ((frameRmsSq f : ℚ) : ℝ) / 32767) ^ (20 : ℕ)
          ≤ ((10 : ℝ) ^ ((T : ℝ) / 20)) ^ (20 : ℕ) :=
    (pow_le_pow_iff_left₀ (le_of_lt hx)
      (Real.rpow_nonneg (by norm_num) _) (by norm_num)).symm
  have h4 : ((10 : ℝ) ^ ((T : ℝ) / 20)) ^ (20 : ℕ) = (10 : ℝ) ^ ((T : ℤ) : ℝ) := by
    rw [← Real.rpow_natCast ((10 : ℝ) ^ ((T : ℝ) / 20)) 20,
      ← Real.rpow_mul (by norm_num)]
    norm_num
  have h5 : (Real.sqrt ((frameRmsSq f : ℚ) : ℝ) / 32767) ^ (20 : ℕ)
      = (((frameRmsSq f : ℚ) : ℝ) / 32767 ^ 2) ^ (10 : ℕ) := by
    have h5a : (Real.sqrt ((frameRmsSq f : ℚ) : ℝ) / 32767) ^ (20 : ℕ)
        = ((Real.sqrt ((frameRmsSq f : ℚ) : ℝ) / 32767) ^ 2) ^ (10 : ℕ) := by
      rw [← pow_mul]
    rw [h5a, div_pow, Real.sq_sqrt (le_of_lt hqR)]
  have h6 : (10 : ℝ) ^ ((T : ℤ) : ℝ) = (((10 : ℚ) ^ T : ℚ) : ℝ) := by
    rw [Real.rpow_intCast]
    push_cast
    rfl
  rw [h1, h2, h3, h4, h5, h6]
  rw [show ((32767 : ℝ) ^ 2) = (((fullScale : ℚ) ^ 2 : ℚ) : ℝ) by norm_num [fullScale]]
  rw [show ((((frameRmsSq f : ℚ) : ℝ)) / (((fullScale : ℚ) ^ 2 : ℚ) : ℝ))
      = (((frameRmsSq f / (fullScale : ℚ) ^ 2 : ℚ)) : ℝ) by push_cast; ring]
  rw [show ((((frameRmsSq f / (fullScale : ℚ) ^ 2 : ℚ)) : ℝ) ^ (10 : ℕ))
      = (((frameRmsSq f / (fullScale : ℚ) ^ 2) ^ (10 : ℕ) : ℚ) : ℝ) by push_cast; ring]
  exact Rat.cast_le.symm

/-- For an all-silent flag list the loop produces at most the single
whole-signal region, kept only if it passes the duration test. -/
theorem runRegions_all_true (qual : ℕ → Bool) (i : ℕ) (t : List Bool)
    (ht : ∀ b ∈ t, b = true) :
    runRegions qual i t =
      if t = [] then []
      else if qual t.length then [(i, i + t.length)] else [] := by
  match t with
  | [] => rw [runRegions_nil]; rfl
  | b :: rest =>
    have hb := ht b (by simp)
    subst hb
    have hrest : ∀ x ∈ rest, x = true := fun x hx => ht x (by simp [hx])
    have htw : rest.takeWhile (fun x => x) = rest := by
      have := takeWhile_id_all_true_append hrest []
      simpa using this
    have hdw : rest.dropWhile (fun x => x) = [] := by
      have := dropWhile_id_all_true_append hrest []
      simpa using this
    rw [runRegions_true, htw, hdw, runRegions_nil, List.append_nil]
    simp [List.length_cons]

theorem frameSilent_zero_pair :
    frameSilent (-40) [(0 : Sample), 0] = true := by
  unfold frameSilent
  rw [if_pos (by norm_num [frameRmsSq])]
  rfl

/-- C3 (amended): `_remove_silences` partitions the analysis signal into
fixed frames of `chunk_samples` samples (100 ms; the last frame may be
shorter but is nonempty), marks a frame silent exactly when
`20*log10(rms/full_scale)` (with a `-100 dB` floor at zero RMS) is at most
the threshold, coalesces consecutive silent frames into maximal regions
kept only when their duration (frame count times 0.1 s, the trailing run
judged by the same rule) reaches the minimum, and returns nothing exactly
when no qualifying region exists — in particular for empty input, and for
input entirely below threshold whose frame count times 0.1 s is below the
minimum duration (the amendment: the partial trailing frame counts as a
full 0.1 s, so this is not the same as the raw signal duration being below
the minimum). -/
theorem c3_remove_silence_analysis (T : ℤ) (m : ℚ) (k : ℕ) (hk : 0 < k)
    (sig : List Sample) :
    ((chunksOf k sig).flatten = sig ∧ (sig ≠ [] → shapeK k (chunksOf k sig)))
    ∧ (∀ fr : List Sample, 0 < frameRmsSq fr →
        (frameSilent T fr = true ↔
          20 * Real.logb 10 (Real.sqrt ((frameRmsSq fr : ℚ) : ℝ) / 32767) ≤ (T : ℝ)))
    ∧ (∀ fr : List Sample, frameRmsSq fr = 0 →
        (frameSilent T fr = true ↔ ((-100 : ℝ) ≤ (T : ℝ))))
    ∧ (∀ flags : List Bool,
        silentRegions (qualDur m) flags = runRegions (qualDur m) 0 flags)
    ∧ (removeSilencesGen (frameSilent T) (qualDur m) k sig = none ↔
        silentRegions (qualDur m) ((chunksOf k sig).map (frameSilent T)) = [])
    ∧ removeSilencesGen (frameSilent T) (qualDur m) k ([] : List Sample) = none
    ∧ ((∀ c ∈ chunksOf k sig, frameSilent T c = true) →
        qualDur m (chunksOf k sig).length = false →
        removeSilencesGen (frameSilent T) (qualDur m) k sig = none) := by
  refine ⟨⟨flatten_chunksOf k (by omega) sig.length sig (le_refl _), fun hne =>
      shapeK_chunksOf k hk sig.length sig (le_refl _) hne⟩,
    fun fr hfr => frameSilent_iff_db T fr hfr,
    fun fr hfr => ?floor,
    fun flags => regionsFrom_eq_runRegions (qualDur m) flags.length flags 0 (le_refl _),
    ?noneIff, ?empty, ?short⟩
  case floor =>
    unfold frameSilent
    rw [if_pos hfr, decide_eq_true_eq]
    exact ⟨fun h => by exact_mod_cast h, fun h => by exact_mod_cast h⟩
  case noneIff =>
    rw [removeSilencesGen_eq]
    by_cases h : silentRegions (qualDur m) ((chunksOf k sig).map (frameSilent T)) = []
    · simp [h]
    · simp [h]
  case empty =>
    rw [removeSilencesGen_eq, chunksOf_nil]
    rw [if_pos (by simp [silentRegions, regionsFrom])]
  case short =>
    intro hall hq
    rw [removeSilencesGen_eq]
    have hflags : ∀ b ∈ (chunksOf k sig).map (frameSilent T), b = true := by
      intro b hb
      rw [List.mem_map] at hb
      obtain ⟨c, hc, hbc⟩ := hb
      rw [← hbc]
      exact hall c hc
    rw [if_pos ?reg]
    case reg =>
      rw [silentRegions, regionsFrom_eq_runRegions (qualDur m) _ _ 0 (le_refl _),
        runRegions_all_true (qualDur m) 0 _ hflags]
      split
      · rfl
      · rw [List.length_map, hq]
        rfl

/-- Witness for C3 at concrete inputs: the partition, the dB decision on a
full-scale frame, and the amended too-short all-silent case. -/
theorem c3_remove_silence_analysis_witness :
    (chunksOf 2 [(0 : Sample), 0, 0]).flatten = [(0 : Sample), 0, 0]
    ∧ (frameSilent (-40) [(32767 : Sample)] = true ↔
        20 * Real.logb 10
          (Real.sqrt ((frameRmsSq [(32767 : Sample)] : ℚ) : ℝ) / 32767) ≤ ((-40 : ℤ) : ℝ))
    ∧ removeSilencesGen (frameSilent (-40)) (qualDur 1) 2 [(0 : Sample), 0, 0] = none := by
  refine ⟨(c3_remove_silence_analysis (-40) 1 2 (by norm_num) [(0 : Sample), 0, 0]).1.1,
    (c3_remove_silence_analysis (-40) 1 2 (by norm_num) [(0 : Sample), 0, 0]).2.1
      [(32767 : Sample)] (by norm_num [frameRmsSq]),
    (c3_remove_silence_analysis (-40) 1 2 (by norm_num)
      [(0 : Sample), 0, 0]).2.2.2.2.2.2 ?all ?shortq⟩
  case all =>
    intro c hc
    rw [show chunksOf 2 [(0 : Sample), 0, 0] = [[0, 0], [0]] from rfl] at hc
    simp only [List.mem_cons, List.not_mem_nil, or_false] at hc
    rcases hc with hc | hc
    · rw [hc]; exact frameSilent_zero_pair
    · rw [hc]; exact frameSilent_zero_frame
  case shortq =>
    show qualDur 1 2 = false
    unfold qualDur
    rw [decide_eq_false_iff_not]
    norm_num

/-- Counterexample to C3's final edge case as stated: an all-silent
3-sample signal at `k = 2` samples per frame (i.e. a 0.15 s signal at a
20 Hz analysis rate) is shorter than the 0.2 s minimum-silence parameter,
yet `_remove_silences` counts it as two full 100 ms frames, finds one
qualifying region and excises everything (`some []`), instead of returning
nothing. -/
theorem c3_edge_case_counterexample :
    removeSilencesGen (frameSilent (-40)) (qualDur (1 / 5)) 2 [(0 : Sample), 0, 0]
      = some []
    ∧ (∀ c ∈ chunksOf 2 [(0 : Sample), 0, 0], frameSilent (-40) c = true)
    ∧ ((3 : ℚ) / 20 < 1 / 5) := by
  have hch : chunksOf 2 [(0 : Sample), 0, 0] = [[0, 0], [0]] := rfl
  have hflags : ([[0, 0], [(0 : Sample)]]).map (frameSilent (-40)) = [true, true] := by
    simp only [List.map_cons, List.map_nil, frameSilent_zero_pair, frameSilent_zero_frame]
  have hreg : silentRegions (qualDur (1 / 5)) [true, true] = [(0, 2)] := by
    simp [silentRegions, regionsFrom, qualDur_fifth_two]
  refine ⟨?_, ?_, by norm_num⟩
  · rw [removeSilencesGen_eq, hch, hflags, hreg, if_neg (by simp)]
    rfl
  · intro c hc
    rw [hch] at hc
    simp only [List.mem_cons, List.not_mem_nil, or_false] at hc
    rcases hc with hc | hc
    · rw [hc]; exact frameSilent_zero_pair
    · rw [hc]; exact frameSilent_zero_frame

end WhisperNotepad
